import Mathlib

/-!
Verification development for the juniper GraphQL document parser core
(`src/juniper/src/parser/document.rs`), the pointer conversion impls
(`src/juniper/src/types/pointers.rs`) and the Rocket form handler
(`src/juniper/src/integrations/rocket_handlers.rs`).

The document parser from `document.rs` is embedded faithfully, function by
function, as state-passing functions over a token stream.  The parser driver
(`peek`/`next`/`expect`/`expect_name`/`skip`, the delimited-list combinators),
the lexer token type and the value-literal parser live in repository files not
present under `src/`; those are modelled from the specification (§3, §4.2,
§4.3, §4.4) and are marked `Modelled from the spec:` in their doc comments.

Machine integers (`i64`) are modelled as `Int`; `f64` float payloads are
modelled opaquely by their literal text, since no verified property inspects a
float value.  Recursion in the recursive-descent parser is made structural
with an explicit fuel parameter: `PR.fuel` marks fuel exhaustion and is
distinct from every parse outcome of the source program.
-/

namespace Juniper

/-- `SourcePosition`: absolute byte index, 0-based line, 0-based column
(spec §3). -/
structure SourcePosition where
  index : Nat
  line : Nat
  col : Nat
deriving DecidableEq, Repr

/-- The zero position (start of input). -/
def pos0 : SourcePosition := ⟨0, 0, 0⟩

/-- `Spanning<T>`: a value paired with a start and end source position
(spec §3).  Rust's field `end` is a Lean keyword and is named `stop` here. -/
structure Spanning (α : Type) where
  start : SourcePosition
  stop : SourcePosition
  item : α
deriving DecidableEq, Repr

/-- `Spanning::map`: apply a function to the item, keeping the span. -/
def Spanning.map (f : α → β) (s : Spanning α) : Spanning β :=
  ⟨s.start, s.stop, f s.item⟩

/-- Modelled from the spec: `Spanning::spanning(v)` (parser utils, not under
`src/`) wraps a non-empty vector in a span from the first item's start to the
last item's end, and returns `None` for an empty vector. -/
def Spanning.spanning (v : List (Spanning α)) : Option (Spanning (List (Spanning α))) :=
  match v.head?, v.getLast? with
  | some f, some l => some ⟨f.start, l.stop, v⟩
  | _, _ => none

/-- Modelled from the spec: scalar literal payloads (§3).  `i64` is modelled
as `Int`; the `f64` payload is modelled opaquely by its literal text. -/
inductive ScalarToken where
  | Int (n : Int)
  | Float (f : String)
  | String (s : String)
deriving DecidableEq, Repr

/-- Modelled from the spec: the lexer token type (§3), a closed set of
punctuators, names and scalar literals. -/
inductive Token where
  | Name (s : String)
  | Scalar (s : ScalarToken)
  | CurlyOpen
  | CurlyClose
  | ParenOpen
  | ParenClose
  | BracketOpen
  | BracketClose
  | Ellipsis
  | Colon
  | Equals
  | At
  | Dollar
  | ExclamationMark
  | Pipe
  | EndOfFile
deriving DecidableEq, Repr

/-- Modelled from the spec: the lexer error taxonomy (§4.2). -/
inductive LexError where
  | UnknownCharacter (c : Char)
  | UnterminatedString
  | UnknownEscapeSequence (s : String)
  | UnknownCharacterInString (c : Char)
  | InvalidNumber
  | UnexpectedEndOfFile
deriving DecidableEq, Repr

/-- `ParseError` taxonomy (spec §7). -/
inductive ParseError where
  | UnexpectedToken (t : Token)
  | UnexpectedEndOfFile
  | LexerError (e : LexError)
deriving DecidableEq, Repr

/-- A spanned token, the element of the parser's token stream. -/
abbrev STok := Spanning Token

/-- The parser driver state: the remaining token stream.  A well-formed
stream ends with the `EndOfFile` token produced by the lexer. -/
abbrev PState := List STok

/-- Result of a parse step: success with a value and the remaining stream,
a spanned parse error, or fuel exhaustion (`fuel` never arises from the
embedded source; it only bounds the recursion depth of the embedding). -/
inductive PR (α : Type) where
  | ok (a : α) (ts : PState)
  | err (e : Spanning ParseError)
  | fuel
deriving Repr

/-- Sequencing of parse steps; errors and fuel exhaustion propagate. -/
def PR.bind (r : PR α) (f : α → PState → PR β) : PR β :=
  match r with
  | .ok a ts => f a ts
  | .err e => .err e
  | .fuel => .fuel

/-- `InputValue` (spec §3): the recursive input value tree. -/
inductive InputValue where
  | Null
  | Int (n : Int)
  | Float (f : String)
  | String (s : String)
  | Boolean (b : Bool)
  | Enum (s : String)
  | Variable (s : String)
  | List (l : List (Spanning InputValue))
  | Object (o : List (Spanning String × Spanning InputValue))
deriving Repr

/-- Type references (`Type` in the source; `Type` is a Lean keyword). -/
inductive TypeRef where
  | Named (name : String)
  | List (t : TypeRef)
  | NonNullNamed (name : String)
  | NonNullList (t : TypeRef)
deriving DecidableEq, Repr

/-- `OperationType` from the AST. -/
inductive OperationType where
  | Query
  | Mutation
deriving DecidableEq, Repr

/-- `Arguments { items }`. -/
structure Arguments where
  items : List (Spanning String × Spanning InputValue)
deriving Repr

/-- `Directive { name, arguments }`. -/
structure Directive where
  name : Spanning String
  arguments : Option (Spanning Arguments)
deriving Repr

/-- `VariableDefinition { var_type, default_value }`. -/
structure VariableDefinition where
  var_type : Spanning TypeRef
  default_value : Option (Spanning InputValue)
deriving Repr

/-- `VariableDefinitions { items }`, keyed by spanned variable name. -/
structure VariableDefinitions where
  items : List (Spanning String × VariableDefinition)
deriving Repr

/-- `FragmentSpread { name, directives }`. -/
structure FragmentSpread where
  name : Spanning String
  directives : Option (List (Spanning Directive))
deriving Repr

mutual

/-- `Field { alias, name, arguments, directives, selection_set }`. -/
inductive Field where
  | mk («alias» : Option (Spanning String)) (name : Spanning String)
      (arguments : Option (Spanning Arguments))
      (directives : Option (List (Spanning Directive)))
      (selection_set : Option (List Selection))

/-- `InlineFragment { type_condition, directives, selection_set }`. -/
inductive InlineFragment where
  | mk (type_condition : Option (Spanning String))
      (directives : Option (List (Spanning Directive)))
      (selection_set : List Selection)

/-- `Selection`: a field, fragment spread or inline fragment. -/
inductive Selection where
  | Field (f : Spanning Field)
  | FragmentSpread (s : Spanning FragmentSpread)
  | InlineFragment (i : Spanning InlineFragment)

end

/-- Projection: `Field.alias`. -/
def Field.aliasOf : Field → Option (Spanning String)
  | .mk a _ _ _ _ => a

/-- Projection: `Field.name`. -/
def Field.name : Field → Spanning String
  | .mk _ n _ _ _ => n

/-- Projection: `Field.arguments`. -/
def Field.arguments : Field → Option (Spanning Arguments)
  | .mk _ _ a _ _ => a

/-- Projection: `Field.directives`. -/
def Field.directives : Field → Option (List (Spanning Directive))
  | .mk _ _ _ d _ => d

/-- Projection: `Field.selection_set`. -/
def Field.selection_set : Field → Option (List Selection)
  | .mk _ _ _ _ s => s

/-- Projection: `InlineFragment.type_condition`. -/
def InlineFragment.type_condition : InlineFragment → Option (Spanning String)
  | .mk t _ _ => t

/-- Projection: `InlineFragment.directives`. -/
def InlineFragment.directives : InlineFragment → Option (List (Spanning Directive))
  | .mk _ d _ => d

/-- Projection: `InlineFragment.selection_set`. -/
def InlineFragment.selection_set : InlineFragment → List Selection
  | .mk _ _ s => s

/-- `Operation` AST node (spec §3). -/
structure Operation where
  operation_type : OperationType
  name : Option (Spanning String)
  variable_definitions : Option (Spanning VariableDefinitions)
  directives : Option (List (Spanning Directive))
  selection_set : List Selection

/-- `Fragment` AST node (spec §3). -/
structure Fragment where
  name : Spanning String
  type_condition : Spanning String
  directives : Option (List (Spanning Directive))
  selection_set : List Selection

/-- `Definition`: operation or fragment. -/
inductive Definition where
  | Operation (op : Spanning Operation)
  | Fragment (f : Spanning Fragment)

/-- `Document`: ordered list of definitions. -/
abbrev Document := List Definition

namespace Parser

/-- Modelled from the spec: `Parser::peek` (§4.3) returns the lookahead token
without consuming it.  The default is unreachable for well-formed streams,
which always hold at least the `EndOfFile` token. -/
def peek (ts : PState) : STok :=
  ts.headD ⟨pos0, pos0, Token.EndOfFile⟩

/-- Modelled from the spec: `Parser::next` (§4.3) consumes and returns the
lookahead token; when only the terminating token remains (input ended
mid-production), it fails with `UnexpectedEndOfFile` at that token's span
(§7, §8 boundary tests). -/
def next (ts : PState) : PR STok :=
  match ts with
  | [] => .err ⟨pos0, pos0, ParseError.UnexpectedEndOfFile⟩
  | [t] => .err ⟨t.start, t.stop, ParseError.UnexpectedEndOfFile⟩
  | t :: rest => .ok t rest

/-- Modelled from the spec: `Parser::expect` (§4.3) consumes the lookahead iff
it equals the expected token, else fails with `UnexpectedToken` at it. -/
def expect (expected : Token) (ts : PState) : PR STok :=
  if (peek ts).item ≠ expected then
    (next ts).bind fun t _ => .err (t.map ParseError.UnexpectedToken)
  else
    next ts

/-- Modelled from the spec: `Parser::expect_name` (§4.3) consumes the
lookahead iff it is a `Name`, returning the spanned name text; at end of
input it fails with `UnexpectedEndOfFile`, otherwise with `UnexpectedToken`. -/
def expect_name (ts : PState) : PR (Spanning String) :=
  match (peek ts).item with
  | Token.Name _ =>
      (next ts).bind fun t ts' =>
        match t.item with
        | Token.Name n => .ok ⟨t.start, t.stop, n⟩ ts'
        | _ => .err (t.map ParseError.UnexpectedToken)
  | Token.EndOfFile =>
      .err ⟨(peek ts).start, (peek ts).stop, ParseError.UnexpectedEndOfFile⟩
  | _ => (next ts).bind fun t _ => .err (t.map ParseError.UnexpectedToken)

/-- Modelled from the spec: `Parser::skip` (§4.3) consumes the lookahead iff
it equals the expected token; `none` means "absent, no progress made". -/
def skip (expected : Token) (ts : PState) : PR (Option STok) :=
  if (peek ts).item = expected then
    (next ts).bind fun t ts' => .ok (some t) ts'
  else
    .ok none ts

end Parser

/-! ## The document parser (`document.rs`), embedded function by function.

Each looping or recursive source function takes an explicit fuel argument
that bounds the recursion depth; fuel exhaustion yields `PR.fuel`.  The
embedding otherwise follows the Rust source line by line. -/

/-- `parse_operation_type` (document.rs:247-253). -/
def parse_operation_type (ts : PState) : PR (Spanning OperationType) :=
  match (Parser.peek ts).item with
  | Token.Name "query" =>
      (Parser.next ts).bind fun t ts' => .ok (t.map fun _ => OperationType.Query) ts'
  | Token.Name "mutation" =>
      (Parser.next ts).bind fun t ts' => .ok (t.map fun _ => OperationType.Mutation) ts'
  | _ => (Parser.next ts).bind fun t _ => .err (t.map ParseError.UnexpectedToken)

/-- `wrap_non_null` (document.rs:345-355): consume one `!` and promote the
inner type to the corresponding non-null variant. -/
def wrap_non_null (inner : Spanning TypeRef) (ts : PState) : PR (Spanning TypeRef) :=
  (Parser.expect Token.ExclamationMark ts).bind fun excl ts' =>
    let wrapped := match inner.item with
      | TypeRef.Named name => TypeRef.NonNullNamed name
      | TypeRef.List l => TypeRef.NonNullList l
      | t => t
    .ok ⟨inner.start, excl.stop, wrapped⟩ ts'

/-- The trailing-`!` check of `parse_type` (document.rs:338-342): wrap iff the
lookahead is `!`, otherwise return the base form unchanged. -/
def finish_type (parsed_type : Spanning TypeRef) (ts : PState) : PR (Spanning TypeRef) :=
  match (Parser.peek ts).item with
  | Token.ExclamationMark => wrap_non_null parsed_type ts
  | _ => .ok parsed_type ts

/-- `parse_type` (document.rs:325-343): `Named(name)` or `[ Type ]`, then the
optional trailing `!` via `finish_type`. -/
def parse_type (fuel : Nat) (ts : PState) : PR (Spanning TypeRef) :=
  match fuel with
  | 0 => .fuel
  | fuel + 1 =>
    (Parser.skip Token.BracketOpen ts).bind fun br ts' =>
      match br with
      | some op =>
        (parse_type fuel ts').bind fun inner ts'' =>
          (Parser.expect Token.BracketClose ts'').bind fun close ts''' =>
            finish_type ⟨op.start, close.stop, TypeRef.List inner.item⟩ ts'''
      | none =>
        (Parser.expect_name ts').bind fun n ts'' =>
          finish_type (n.map TypeRef.Named) ts''

/-- Modelled from the spec: the variable branch of the value parser (§4.4):
consume `$`, expect a name, produce `Variable(name)` spanned from the `$`. -/
def parse_variable_literal (ts : PState) : PR (Spanning InputValue) :=
  (Parser.expect Token.Dollar ts).bind fun d ts' =>
    (Parser.expect_name ts').bind fun n ts'' =>
      .ok ⟨d.start, n.stop, InputValue.Variable n.item⟩ ts''

mutual

/-- Modelled from the spec: `parse_value_literal(parser, is_constant)` (§4.4).
Dispatch on the lookahead token; the `is_constant` flag is threaded unchanged
through nested lists and objects, and a `$` in constant position is an
`UnexpectedToken` error. -/
def parse_value_literal (fuel : Nat) (is_constant : Bool) (ts : PState) :
    PR (Spanning InputValue) :=
  match fuel with
  | 0 => .fuel
  | fuel + 1 =>
    match (Parser.peek ts).item with
    | Token.Dollar =>
        if is_constant then
          (Parser.next ts).bind fun t _ => .err (t.map ParseError.UnexpectedToken)
        else
          parse_variable_literal ts
    | Token.Scalar (ScalarToken.Int n) =>
        (Parser.next ts).bind fun t ts' => .ok (t.map fun _ => InputValue.Int n) ts'
    | Token.Scalar (ScalarToken.Float f) =>
        (Parser.next ts).bind fun t ts' => .ok (t.map fun _ => InputValue.Float f) ts'
    | Token.Scalar (ScalarToken.String s) =>
        (Parser.next ts).bind fun t ts' => .ok (t.map fun _ => InputValue.String s) ts'
    | Token.Name "true" =>
        (Parser.next ts).bind fun t ts' => .ok (t.map fun _ => InputValue.Boolean true) ts'
    | Token.Name "false" =>
        (Parser.next ts).bind fun t ts' => .ok (t.map fun _ => InputValue.Boolean false) ts'
    | Token.Name "null" =>
        (Parser.next ts).bind fun t ts' => .ok (t.map fun _ => InputValue.Null) ts'
    | Token.Name n =>
        (Parser.next ts).bind fun t ts' => .ok (t.map fun _ => InputValue.Enum n) ts'
    | Token.BracketOpen =>
        (Parser.expect Token.BracketOpen ts).bind fun op ts' =>
          (value_list_loop fuel is_constant ts').bind fun pair ts'' =>
            .ok ⟨op.start, pair.2, InputValue.List pair.1⟩ ts''
    | Token.CurlyOpen =>
        (Parser.expect Token.CurlyOpen ts).bind fun op ts' =>
          (object_field_loop fuel is_constant ts').bind fun pair ts'' =>
            .ok ⟨op.start, pair.2, InputValue.Object (pair.1.map Spanning.item)⟩ ts''
    | _ => (Parser.next ts).bind fun t _ => .err (t.map ParseError.UnexpectedToken)

/-- Modelled from the spec: the loop of `delimited_list('[', value, ']')`
(§4.3): stop when the closing token is skipped, else parse another item. -/
def value_list_loop (fuel : Nat) (is_constant : Bool) (ts : PState) :
    PR (List (Spanning InputValue) × SourcePosition) :=
  match fuel with
  | 0 => .fuel
  | fuel + 1 =>
    (Parser.skip Token.BracketClose ts).bind fun cl ts' =>
      match cl with
      | some c => .ok ([], c.stop) ts'
      | none =>
        (parse_value_literal fuel is_constant ts').bind fun v ts'' =>
          (value_list_loop fuel is_constant ts'').bind fun rest ts''' =>
            .ok (v :: rest.1, rest.2) ts'''

/-- Modelled from the spec: the loop of `delimited_list('{', object-field,
'}')` (§4.3, §4.4). -/
def object_field_loop (fuel : Nat) (is_constant : Bool) (ts : PState) :
    PR (List (Spanning (Spanning String × Spanning InputValue)) × SourcePosition) :=
  match fuel with
  | 0 => .fuel
  | fuel + 1 =>
    (Parser.skip Token.CurlyClose ts).bind fun cl ts' =>
      match cl with
      | some c => .ok ([], c.stop) ts'
      | none =>
        (parse_object_field fuel is_constant ts').bind fun f ts'' =>
          (object_field_loop fuel is_constant ts'').bind fun rest ts''' =>
            .ok (f :: rest.1, rest.2) ts'''

/-- Modelled from the spec: `parse_object_field` (§4.4): `name ':' value`,
spanned from the name start to the value end. -/
def parse_object_field (fuel : Nat) (is_constant : Bool) (ts : PState) :
    PR (Spanning (Spanning String × Spanning InputValue)) :=
  match fuel with
  | 0 => .fuel
  | fuel + 1 =>
    (Parser.expect_name ts).bind fun n ts' =>
      (Parser.expect Token.Colon ts').bind fun _ ts'' =>
        (parse_value_literal fuel is_constant ts'').bind fun v ts''' =>
          .ok ⟨n.start, v.stop, (n, v)⟩ ts'''

end

/-- `parse_variable_definition` (document.rs:268-295): `$ name : Type
( = constant-value )?`; the default value is parsed with `is_constant=true`. -/
def parse_variable_definition (fuel : Nat) (ts : PState) :
    PR (Spanning (Spanning String × VariableDefinition)) :=
  (Parser.expect Token.Dollar ts).bind fun dollar ts' =>
    (Parser.expect_name ts').bind fun var_name ts'' =>
      (Parser.expect Token.Colon ts'').bind fun _ ts''' =>
        (parse_type fuel ts''').bind fun var_type ts4 =>
          (Parser.skip Token.Equals ts4).bind fun eq ts5 =>
            (match eq with
             | some _ =>
               (parse_value_literal fuel true ts5).bind fun v ts6 =>
                 .ok (some v) ts6
             | none => .ok none ts5).bind fun default_value ts6 =>
              .ok ⟨dollar.start,
                   (default_value.map Spanning.stop).getD var_type.stop,
                   (⟨dollar.start, var_name.stop, var_name.item⟩,
                    { var_type := var_type, default_value := default_value })⟩ ts6

/-- Modelled from the spec: the loop of `delimited_nonempty_list('(',
variable-definition, ')')` (§4.3): parse an item, then stop iff the closing
token is skipped. -/
def variable_definitions_loop (fuel : Nat) (ts : PState) :
    PR (List (Spanning (Spanning String × VariableDefinition)) × SourcePosition) :=
  match fuel with
  | 0 => .fuel
  | fuel + 1 =>
    (parse_variable_definition fuel ts).bind fun d ts' =>
      (Parser.skip Token.ParenClose ts').bind fun cl ts'' =>
        match cl with
        | some c => .ok ([d], c.stop) ts''
        | none =>
          (variable_definitions_loop fuel ts'').bind fun rest ts''' =>
            .ok (d :: rest.1, rest.2) ts'''

/-- `parse_variable_definitions` (document.rs:255-266): absent unless the
lookahead is `(`; otherwise a non-empty delimited list, unwrapped to
`VariableDefinitions { items }`. -/
def parse_variable_definitions (fuel : Nat) (ts : PState) :
    PR (Option (Spanning VariableDefinitions)) :=
  if (Parser.peek ts).item ≠ Token.ParenOpen then
    .ok none ts
  else
    (Parser.expect Token.ParenOpen ts).bind fun op ts' =>
      (variable_definitions_loop fuel ts').bind fun pair ts'' =>
        .ok (some ⟨op.start, pair.2,
              { items := pair.1.map Spanning.item }⟩) ts''

/-- `parse_argument` (document.rs:236-245): `name ':' value` with
`is_constant=false`, spanned name start to value end. -/
def parse_argument (fuel : Nat) (ts : PState) :
    PR (Spanning (Spanning String × Spanning InputValue)) :=
  (Parser.expect_name ts).bind fun name ts' =>
    (Parser.expect Token.Colon ts').bind fun _ ts'' =>
      (parse_value_literal fuel false ts'').bind fun value ts''' =>
        .ok ⟨name.start, value.stop, (name, value)⟩ ts'''

/-- Modelled from the spec: the loop of `delimited_nonempty_list('(',
argument, ')')` (§4.3). -/
def arguments_loop (fuel : Nat) (ts : PState) :
    PR (List (Spanning (Spanning String × Spanning InputValue)) × SourcePosition) :=
  match fuel with
  | 0 => .fuel
  | fuel + 1 =>
    (parse_argument fuel ts).bind fun a ts' =>
      (Parser.skip Token.ParenClose ts').bind fun cl ts'' =>
        match cl with
        | some c => .ok ([a], c.stop) ts''
        | none =>
          (arguments_loop fuel ts'').bind fun rest ts''' =>
            .ok (a :: rest.1, rest.2) ts'''

/-- `parse_arguments` (document.rs:224-234): absent unless the lookahead is
`(`; otherwise a non-empty delimited list mapped to `Arguments { items }`. -/
def parse_arguments (fuel : Nat) (ts : PState) : PR (Option (Spanning Arguments)) :=
  if (Parser.peek ts).item ≠ Token.ParenOpen then
    .ok none ts
  else
    (Parser.expect Token.ParenOpen ts).bind fun op ts' =>
      (arguments_loop fuel ts').bind fun pair ts'' =>
        .ok (some ⟨op.start, pair.2, { items := pair.1.map Spanning.item }⟩) ts''

/-- `parse_directive` (document.rs:311-323): `@ name arguments?`, spanned
from the `@` to the arguments end, or the name end when arguments are absent. -/
def parse_directive (fuel : Nat) (ts : PState) : PR (Spanning Directive) :=
  (Parser.expect Token.At ts).bind fun at_tok ts' =>
    (Parser.expect_name ts').bind fun name ts'' =>
      (parse_arguments fuel ts'').bind fun arguments ts''' =>
        .ok ⟨at_tok.start,
             (arguments.map Spanning.stop).getD name.stop,
             { name := name, arguments := arguments }⟩ ts'''

/-- The `while peek == At` loop of `parse_directives` (document.rs:302-305). -/
def directives_loop (fuel : Nat) (ts : PState) : PR (List (Spanning Directive)) :=
  match fuel with
  | 0 => .fuel
  | fuel + 1 =>
    if (Parser.peek ts).item = Token.At then
      (parse_directive fuel ts).bind fun d ts' =>
        (directives_loop fuel ts').bind fun rest ts'' =>
          .ok (d :: rest) ts''
    else
      .ok [] ts

/-- `parse_directives` (document.rs:297-309): absent unless the lookahead is
`@`; otherwise the run of directives wrapped by `Spanning::spanning`. -/
def parse_directives (fuel : Nat) (ts : PState) :
    PR (Option (Spanning (List (Spanning Directive)))) :=
  if (Parser.peek ts).item ≠ Token.At then
    .ok none ts
  else
    (directives_loop fuel ts).bind fun items ts' =>
      .ok (Spanning.spanning items) ts'

mutual

/-- `parse_selection_set` (document.rs:116-121): non-empty delimited list of
selections between `{` and `}`. -/
def parse_selection_set (fuel : Nat) (ts : PState) : PR (Spanning (List Selection)) :=
  match fuel with
  | 0 => .fuel
  | fuel + 1 =>
    (Parser.expect Token.CurlyOpen ts).bind fun op ts' =>
      (selection_loop fuel ts').bind fun pair ts'' =>
        .ok ⟨op.start, pair.2, pair.1⟩ ts''

/-- Modelled from the spec: the loop of `unlocated_delimited_nonempty_list`
(§4.3) specialised to selections: parse an item, then stop iff `}` is
skipped. -/
def selection_loop (fuel : Nat) (ts : PState) : PR (List Selection × SourcePosition) :=
  match fuel with
  | 0 => .fuel
  | fuel + 1 =>
    (parse_selection fuel ts).bind fun s ts' =>
      (Parser.skip Token.CurlyClose ts').bind fun cl ts'' =>
        match cl with
        | some c => .ok ([s], c.stop) ts''
        | none =>
          (selection_loop fuel ts'').bind fun rest ts''' =>
            .ok (s :: rest.1, rest.2) ts'''

/-- `parse_selection` (document.rs:123-128): a fragment form after `...`,
else a field. -/
def parse_selection (fuel : Nat) (ts : PState) : PR Selection :=
  match fuel with
  | 0 => .fuel
  | fuel + 1 =>
    match (Parser.peek ts).item with
    | Token.Ellipsis => parse_fragment fuel ts
    | _ => (parse_field fuel ts).bind fun f ts' => .ok (Selection.Field f) ts'

/-- `parse_fragment` (document.rs:130-192): after `...`, dispatch on the
lookahead: `on`-named inline fragment, bare inline fragment, fragment spread,
directive-only inline fragment, or `UnexpectedToken`. -/
def parse_fragment (fuel : Nat) (ts : PState) : PR Selection :=
  match fuel with
  | 0 => .fuel
  | fuel + 1 =>
    (Parser.expect Token.Ellipsis ts).bind fun dots ts' =>
      match (Parser.peek ts').item with
      | Token.Name "on" =>
        (Parser.next ts').bind fun _ ts'' =>
          (Parser.expect_name ts'').bind fun name ts''' =>
            (parse_directives fuel ts''').bind fun directives ts4 =>
              (parse_selection_set fuel ts4).bind fun selection_set ts5 =>
                .ok (Selection.InlineFragment
                      ⟨dots.start, selection_set.stop,
                       InlineFragment.mk (some name)
                         (directives.map Spanning.item)
                         selection_set.item⟩) ts5
      | Token.CurlyOpen =>
        (parse_selection_set fuel ts').bind fun selection_set ts'' =>
          .ok (Selection.InlineFragment
                ⟨dots.start, selection_set.stop,
                 InlineFragment.mk none none selection_set.item⟩) ts''
      | Token.Name _ =>
        (Parser.expect_name ts').bind fun frag_name ts'' =>
          (parse_directives fuel ts'').bind fun directives ts''' =>
            .ok (Selection.FragmentSpread
                  ⟨dots.start,
                   (directives.map Spanning.stop).getD frag_name.stop,
                   { name := frag_name,
                     directives := directives.map Spanning.item }⟩) ts'''
      | Token.At =>
        (parse_directives fuel ts').bind fun directives ts'' =>
          (parse_selection_set fuel ts'').bind fun selection_set ts''' =>
            .ok (Selection.InlineFragment
                  ⟨dots.start, selection_set.stop,
                   InlineFragment.mk none
                     (directives.map Spanning.item)
                     selection_set.item⟩) ts'''
      | _ => (Parser.next ts').bind fun t _ => .err (t.map ParseError.UnexpectedToken)

/-- `parse_field` (document.rs:194-222): consume a name (tentatively the
alias); if `:` follows, a second name is the field name, else the first name
is the field name and there is no alias.  Then optional arguments, directives
and selection set, with the span ending at the last present component. -/
def parse_field (fuel : Nat) (ts : PState) : PR (Spanning Field) :=
  match fuel with
  | 0 => .fuel
  | fuel + 1 =>
    (Parser.expect_name ts).bind fun first ts' =>
      (Parser.skip Token.Colon ts').bind fun colon ts'' =>
        (match colon with
         | some _ =>
           (Parser.expect_name ts'').bind fun second ts''' =>
             .ok (some first, second) ts'''
         | none => .ok (none, first) ts'').bind fun an ts''' =>
          (parse_arguments fuel ts''').bind fun arguments ts4 =>
            (parse_directives fuel ts4).bind fun directives ts5 =>
              (parse_optional_selection_set fuel ts5).bind fun selection_set ts6 =>
                .ok ⟨((an.1.map Spanning.start).getD an.2.start),
                     ((selection_set.map Spanning.stop)
                       |>.orElse (fun _ => directives.map Spanning.stop)
                       |>.orElse (fun _ => arguments.map Spanning.stop)
                       |>.getD an.2.stop),
                     Field.mk an.1 an.2 arguments
                       (directives.map Spanning.item)
                       (selection_set.map Spanning.item)⟩ ts6

/-- `parse_optional_selection_set` (document.rs:107-114). -/
def parse_optional_selection_set (fuel : Nat) (ts : PState) :
    PR (Option (Spanning (List Selection))) :=
  match fuel with
  | 0 => .fuel
  | fuel + 1 =>
    if (Parser.peek ts).item = Token.CurlyOpen then
      (parse_selection_set fuel ts).bind fun s ts' => .ok (some s) ts'
    else
      .ok none ts

end

/-- `parse_fragment_definition` (document.rs:79-105): `fragment`, a name that
must not be `on`, `on`, a type condition name, optional directives, selection
set. -/
def parse_fragment_definition (fuel : Nat) (ts : PState) : PR (Spanning Fragment) :=
  (Parser.expect (Token.Name "fragment") ts).bind fun kw ts' =>
    (Parser.expect_name ts').bind fun n ts'' =>
      (if n.item = "on" then
        PR.err (n.map fun _ => ParseError.UnexpectedToken (Token.Name "on"))
      else
        PR.ok n ts'').bind fun name ts''' =>
        (Parser.expect (Token.Name "on") ts''').bind fun _ ts4 =>
          (Parser.expect_name ts4).bind fun type_cond ts5 =>
            (parse_directives fuel ts5).bind fun directives ts6 =>
              (parse_selection_set fuel ts6).bind fun selection_set ts7 =>
                .ok ⟨kw.start, selection_set.stop,
                     { name := name,
                       type_condition := type_cond,
                       directives := directives.map Spanning.item,
                       selection_set := selection_set.item }⟩ ts7

/-- `parse_operation_definition` (document.rs:40-77): a bare `{` yields an
anonymous query spanning the selection set; otherwise an operation type,
optional name, optional variable definitions, optional directives and a
selection set. -/
def parse_operation_definition (fuel : Nat) (ts : PState) : PR (Spanning Operation) :=
  if (Parser.peek ts).item = Token.CurlyOpen then
    (parse_selection_set fuel ts).bind fun selection_set ts' =>
      .ok ⟨selection_set.start, selection_set.stop,
           { operation_type := OperationType.Query,
             name := none,
             variable_definitions := none,
             directives := none,
             selection_set := selection_set.item }⟩ ts'
  else
    let start_pos := (Parser.peek ts).start
    (parse_operation_type ts).bind fun operation_type ts' =>
      (match (Parser.peek ts').item with
       | Token.Name _ =>
         (Parser.expect_name ts').bind fun n ts'' => .ok (some n) ts''
       | _ => .ok none ts').bind fun name ts'' =>
        (parse_variable_definitions fuel ts'').bind fun variable_definitions ts''' =>
          (parse_directives fuel ts''').bind fun directives ts4 =>
            (parse_selection_set fuel ts4).bind fun selection_set ts5 =>
              .ok ⟨start_pos, selection_set.stop,
                   { operation_type := operation_type.item,
                     name := name,
                     variable_definitions := variable_definitions,
                     directives := directives.map Spanning.item,
                     selection_set := selection_set.item }⟩ ts5

/-- `parse_definition` (document.rs:30-38): dispatch on the lookahead. -/
def parse_definition (fuel : Nat) (ts : PState) : PR Definition :=
  match (Parser.peek ts).item with
  | Token.CurlyOpen =>
      (parse_operation_definition fuel ts).bind fun op ts' =>
        .ok (Definition.Operation op) ts'
  | Token.Name "query" =>
      (parse_operation_definition fuel ts).bind fun op ts' =>
        .ok (Definition.Operation op) ts'
  | Token.Name "mutation" =>
      (parse_operation_definition fuel ts).bind fun op ts' =>
        .ok (Definition.Operation op) ts'
  | Token.Name "fragment" =>
      (parse_fragment_definition fuel ts).bind fun f ts' =>
        .ok (Definition.Fragment f) ts'
  | _ => (Parser.next ts).bind fun t _ => .err (t.map ParseError.UnexpectedToken)

/-- `parse_document` (document.rs:18-28): parse definitions until the
lookahead is `EndOfFile`. -/
def parse_document (fuel : Nat) (ts : PState) : PR Document :=
  match fuel with
  | 0 => .fuel
  | fuel + 1 =>
    (parse_definition fuel ts).bind fun d ts' =>
      if (Parser.peek ts').item = Token.EndOfFile then
        .ok [d] ts'
      else
        (parse_document fuel ts').bind fun ds ts'' =>
          .ok (d :: ds) ts''

/-- Modelled from the spec: the lexer (§4.2, not under `src/`) produces, for
empty input, only the terminating `EndOfFile` token spanned at position 0. -/
def emptyInputTokens : PState := [⟨pos0, pos0, Token.EndOfFile⟩]

/-- Single-line token helper for concrete streams: byte index equals column. -/
def tk (a b : Nat) (t : Token) : STok := ⟨⟨a, 0, a⟩, ⟨b, 0, b⟩, t⟩

/-! ## Concrete token streams (lexer output for the spec's scenario inputs). -/

/-- Token stream of `"{ a }"`. -/
def tokensBraceA : PState :=
  [tk 0 1 Token.CurlyOpen, tk 2 3 (Token.Name "a"),
   tk 4 5 Token.CurlyClose, tk 5 5 Token.EndOfFile]

/-- The document parsed from `"{ a }"`. -/
def docBraceA : Document :=
  [Definition.Operation ⟨⟨0, 0, 0⟩, ⟨5, 0, 5⟩,
    { operation_type := OperationType.Query,
      name := none,
      variable_definitions := none,
      directives := none,
      selection_set := [Selection.Field ⟨⟨2, 0, 2⟩, ⟨3, 0, 3⟩,
        Field.mk none ⟨⟨2, 0, 2⟩, ⟨3, 0, 3⟩, "a"⟩ none none none⟩] }⟩]

/-- Token stream of `"fragment on on T { x }"` (scenario E6). -/
def tokensFragmentOn : PState :=
  [tk 0 8 (Token.Name "fragment"), tk 9 11 (Token.Name "on"),
   tk 12 14 (Token.Name "on"), tk 15 16 (Token.Name "T"),
   tk 17 18 Token.CurlyOpen, tk 19 20 (Token.Name "x"),
   tk 21 22 Token.CurlyClose, tk 22 22 Token.EndOfFile]

/-- Token stream of the type `"[Int!]!"` (scenario E5). -/
def tokensNonNullList : PState :=
  [tk 0 1 Token.BracketOpen, tk 1 4 (Token.Name "Int"),
   tk 4 5 Token.ExclamationMark, tk 5 6 Token.BracketClose,
   tk 6 7 Token.ExclamationMark, tk 7 7 Token.EndOfFile]

/-- Token stream of `"query ($x: Int!!) { a }"` (boundary test `!!`). -/
def tokensDoubleBang : PState :=
  [tk 0 5 (Token.Name "query"), tk 6 7 Token.ParenOpen, tk 7 8 Token.Dollar,
   tk 8 9 (Token.Name "x"), tk 9 10 Token.Colon, tk 11 14 (Token.Name "Int"),
   tk 14 15 Token.ExclamationMark, tk 15 16 Token.ExclamationMark,
   tk 16 17 Token.ParenClose, tk 18 19 Token.CurlyOpen,
   tk 20 21 (Token.Name "a"), tk 22 23 Token.CurlyClose,
   tk 23 23 Token.EndOfFile]

/-- Token stream of `"query ($e: Int = 5) { a }"`. -/
def tokensVarDefault : PState :=
  [tk 0 5 (Token.Name "query"), tk 6 7 Token.ParenOpen, tk 7 8 Token.Dollar,
   tk 8 9 (Token.Name "e"), tk 9 10 Token.Colon, tk 11 14 (Token.Name "Int"),
   tk 15 16 Token.Equals, tk 17 18 (Token.Scalar (ScalarToken.Int 5)),
   tk 18 19 Token.ParenClose, tk 20 21 Token.CurlyOpen,
   tk 22 23 (Token.Name "a"), tk 24 25 Token.CurlyClose,
   tk 25 25 Token.EndOfFile]

/-- The document parsed from `"query ($e: Int = 5) { a }"`. -/
def docVarDefault : Document :=
  [Definition.Operation ⟨⟨0, 0, 0⟩, ⟨25, 0, 25⟩,
    { operation_type := OperationType.Query,
      name := none,
      variable_definitions := some ⟨⟨6, 0, 6⟩, ⟨19, 0, 19⟩,
        { items := [(⟨⟨7, 0, 7⟩, ⟨9, 0, 9⟩, "e"⟩,
          { var_type := ⟨⟨11, 0, 11⟩, ⟨14, 0, 14⟩, TypeRef.Named "Int"⟩,
            default_value := some ⟨⟨17, 0, 17⟩, ⟨18, 0, 18⟩,
              InputValue.Int 5⟩ })] }⟩,
      directives := none,
      selection_set := [Selection.Field ⟨⟨22, 0, 22⟩, ⟨23, 0, 23⟩,
        Field.mk none ⟨⟨22, 0, 22⟩, ⟨23, 0, 23⟩, "a"⟩ none none none⟩] }⟩]

/-! ## `types/pointers.rs` — boxed-value conversions (C9). -/

/-- `Box<T>` modelled as a plain wrapper around a value. -/
structure Box (α : Type) where
  val : α
deriving Repr

/-- `FromInputValue for Box<T>` (pointers.rs:34-41): delegate to `T::from`;
`Some(v)` becomes `Some(Box::new(v))` and `None` stays `None`.  The generic
`T::from` is the function parameter `fromT`. -/
def box_from_input_value (fromT : InputValue → Option α) (v : InputValue) :
    Option (Box α) :=
  match fromT v with
  | some x => some ⟨x⟩
  | none => none

/-- `ToInputValue for Box<T>` (pointers.rs:43-47): delegate to the inner
value's `to`. -/
def box_to_input_value (toT : α → InputValue) (b : Box α) : InputValue :=
  toT b.val

/-- `ToInputValue for &'a T` (pointers.rs:75-79): delegate to the referent's
`to`. -/
def ref_to_input_value (toT : α → InputValue) (r : α) : InputValue :=
  toT r

/-! ## `integrations/rocket_handlers.rs` — `FromForm for GraphQLRequest`
(C10).

The form items are modelled as already-decoded `(key, value)` string pairs:
Rocket's `String::from_form_value` URL decoding belongs to the external
framework (out of scope per spec §1) and is modelled as the identity.
`serde_json::from_str::<InputValue>` is the external JSON library and is the
function parameter `jsonParse`, returning the error description on failure. -/

/-- Modelled from the spec (§6): the request shape
`{ query, operation_name?, variables? }` built by `http::GraphQLRequest::new`
(the `http` module is not under `src/`). -/
structure GraphQLRequest where
  query : String
  operation_name : Option String
  «variables» : Option InputValue

/-- Whether an `Except` result is a success. -/
def exceptOk : Except ε α → Bool
  | .ok _ => true
  | .error _ => false

/-- The `for (key, value) in form_items` loop of `from_form_items`
(rocket_handlers.rs:67-100), carrying the three registers; duplicate keys
error out, a failing JSON parse of `variables` errors out, and every
unrecognized key falls into the `_ => {}` arm. -/
def from_form_items_loop (jsonParse : String → Except String InputValue) :
    List (String × String) → Option String → Option String → Option InputValue →
    Except String (Option String × Option String × Option InputValue)
  | [], query, opname, vars => Except.ok (query, opname, vars)
  | (key, value) :: rest, query, opname, vars =>
    if key = "query" then
      if query.isSome then
        Except.error "Query parameter must not occur more than once"
      else
        from_form_items_loop jsonParse rest (some value) opname vars
    else if key = "operation_name" then
      if opname.isSome then
        Except.error "Operation name parameter must not occur more than once"
      else
        from_form_items_loop jsonParse rest query (some value) vars
    else if key = "variables" then
      if vars.isSome then
        Except.error "Variables parameter must not occur more than once"
      else
        match jsonParse value with
        | Except.ok v => from_form_items_loop jsonParse rest query opname (some v)
        | Except.error e => Except.error e
    else
      from_form_items_loop jsonParse rest query opname vars

/-- `from_form_items` (rocket_handlers.rs:66-112): run the loop from empty
registers, then require the `query` register to be set. -/
def from_form_items (jsonParse : String → Except String InputValue)
    (items : List (String × String)) : Except String GraphQLRequest :=
  match from_form_items_loop jsonParse items none none none with
  | Except.error e => Except.error e
  | Except.ok (query, opname, vars) =>
    match query with
    | some q => Except.ok { query := q, operation_name := opname, «variables» := vars }
    | none => Except.error "Query parameter missing"

/-- Number of occurrences of a form key. -/
def keyCount (k : String) (items : List (String × String)) : Nat :=
  (items.filter (fun p => p.1 = k)).length

/-- The recognized form keys. -/
def recognizedKey (p : String × String) : Bool :=
  p.1 == "query" || p.1 == "operation_name" || p.1 == "variables"

/-! ## Predicates for the verified invariants. -/

mutual

/-- No `Variable` node occurs anywhere in the value tree. -/
def InputValue.varFree : InputValue → Bool
  | .Null => true
  | .Int _ => true
  | .Float _ => true
  | .String _ => true
  | .Boolean _ => true
  | .Enum _ => true
  | .Variable _ => false
  | .List xs => varFreeList xs
  | .Object fs => varFreeObject fs

/-- `varFree` on every element of a list literal. -/
def varFreeList : List (Spanning InputValue) → Bool
  | [] => true
  | x :: xs => x.item.varFree && varFreeList xs

/-- `varFree` on every field value of an object literal. -/
def varFreeObject : List (Spanning String × Spanning InputValue) → Bool
  | [] => true
  | p :: ps => p.2.item.varFree && varFreeObject ps

end

/-- The default value, when present, holds no `Variable` node. -/
def VariableDefinition.defaultVarFree (vd : VariableDefinition) : Prop :=
  ∀ dv, vd.default_value = some dv → dv.item.varFree = true

/-- Every variable-definition default value in the definition is
variable-free; fragments have no variable definitions. -/
def Definition.defaultsVarFree : Definition → Prop
  | .Operation op => ∀ s, op.item.variable_definitions = some s →
      ∀ p ∈ s.item.items, p.2.defaultVarFree
  | .Fragment _ => True

/-- A present arguments group holds at least one item. -/
def argsOptOk : Option (Spanning Arguments) → Bool
  | none => true
  | some s => !s.item.items.isEmpty

/-- Every directive's own arguments group is non-empty when present. -/
def dirListOk (l : List (Spanning Directive)) : Bool :=
  l.all fun d => argsOptOk d.item.arguments

/-- A present directives group is non-empty and its directives' argument
groups are non-empty when present. -/
def dirsOptOk : Option (List (Spanning Directive)) → Bool
  | none => true
  | some l => !l.isEmpty && dirListOk l

/-- A present variable-definitions group holds at least one item. -/
def vardefsOptOk : Option (Spanning VariableDefinitions) → Bool
  | none => true
  | some s => !s.item.items.isEmpty

mutual

/-- All optional groups inside a field are non-empty when present. -/
def Field.groupsOk : Field → Bool
  | .mk _ _ args dirs sels =>
      argsOptOk args && dirsOptOk dirs && optSelectionsOk sels

/-- All optional groups inside an inline fragment are non-empty when
present. -/
def InlineFragment.groupsOk : InlineFragment → Bool
  | .mk _ dirs sels => dirsOptOk dirs && selectionsOk sels

/-- All optional groups inside a selection are non-empty when present. -/
def Selection.groupsOk : Selection → Bool
  | .Field f => f.item.groupsOk
  | .FragmentSpread s => dirsOptOk s.item.directives
  | .InlineFragment i => i.item.groupsOk

/-- `groupsOk` on every selection of a list. -/
def selectionsOk : List Selection → Bool
  | [] => true
  | s :: rest => s.groupsOk && selectionsOk rest

/-- `groupsOk` on an optional selection set. -/
def optSelectionsOk : Option (List Selection) → Bool
  | none => true
  | some l => selectionsOk l

end

/-- All optional groups inside an operation are non-empty when present. -/
def Operation.groupsOk (op : Operation) : Bool :=
  vardefsOptOk op.variable_definitions && dirsOptOk op.directives &&
    selectionsOk op.selection_set

/-- All optional groups inside a fragment definition are non-empty when
present. -/
def Fragment.groupsOk (f : Fragment) : Bool :=
  dirsOptOk f.directives && selectionsOk f.selection_set

/-- `groupsOk` for a top-level definition. -/
def Definition.groupsOk : Definition → Bool
  | .Operation op => op.item.groupsOk
  | .Fragment f => f.item.groupsOk

/-- Every optional argument/variable/directive group anywhere in the document
that is present holds at least one item. -/
def Document.groupsOk (d : Document) : Bool :=
  d.all Definition.groupsOk


end Juniper

namespace Juniper

/-! ## Basic lemmas about the result monad. -/

@[simp] theorem PR.bind_okl (a : α) (ts : PState) (f : α → PState → PR β) :
    (PR.ok a ts).bind f = f a ts := rfl

@[simp] theorem PR.bind_errl (e : Spanning ParseError) (f : α → PState → PR β) :
    (PR.err e).bind f = PR.err e := rfl

@[simp] theorem PR.bind_fuell (f : α → PState → PR β) :
    (PR.fuel).bind f = PR.fuel := rfl

/-- Inversion: a bind succeeds exactly when both steps succeed in sequence. -/
theorem PR.bind_eq_ok {r : PR α} {f : α → PState → PR β} {b : β} {ts' : PState} :
    r.bind f = PR.ok b ts' ↔ ∃ a ts₁, r = PR.ok a ts₁ ∧ f a ts₁ = PR.ok b ts' := by
  cases r with
  | ok a ts =>
      simp only [PR.bind_okl]
      constructor
      · intro h; exact ⟨a, ts, rfl, h⟩
      · rintro ⟨a', ts₁, heq, h⟩
        cases heq
        exact h
  | err e => simp [PR.bind]
  | fuel => simp [PR.bind]

/-! ## Helper lemmas about the driver. -/

/-- A successful `next` returns the head of the stream. -/
theorem Parser.next_ok_shape {ts ts' : PState} {t : STok}
    (h : Parser.next ts = PR.ok t ts') : ts = t :: ts' := by
  match ts with
  | [] => simp [Parser.next] at h
  | [x] => simp [Parser.next] at h
  | x :: y :: rest =>
    injection h with h1 h2
    subst h1
    subst h2
    rfl

/-- A successful `expect_name` returns the text of the lookahead name. -/
theorem Parser.expect_name_ok_peek {ts ts₁ : PState} {n : Spanning String}
    (h : Parser.expect_name ts = PR.ok n ts₁) :
    (Parser.peek ts).item = Token.Name n.item := by
  unfold Parser.expect_name at h
  split at h
  · rename_i s hs
    rw [PR.bind_eq_ok] at h
    obtain ⟨t, ts', hnext, h⟩ := h
    have hshape := Parser.next_ok_shape hnext
    have hpeek : Parser.peek ts = t := by rw [hshape]; rfl
    rw [hpeek] at hs
    rw [hs] at h
    injection h with h1 _
    subst h1
    rw [hpeek, hs]
  · simp at h
  · rw [PR.bind_eq_ok] at h
    obtain ⟨t, ts', _, h⟩ := h
    exact absurd h (by simp [Spanning.map])

/-- A successful pass of the directive run entered at an `@` token yields a
non-empty list. -/
theorem directives_loop_ok_cons {fuel : Nat} {ts ts' : PState}
    {l : List (Spanning Directive)}
    (hAt : (Parser.peek ts).item = Token.At)
    (h : directives_loop fuel ts = PR.ok l ts') : l ≠ [] := by
  match fuel with
  | 0 => simp [directives_loop] at h
  | fuel + 1 =>
    unfold directives_loop at h
    rw [if_pos hAt] at h
    rw [PR.bind_eq_ok] at h
    obtain ⟨d, ts₁, _, h⟩ := h
    rw [PR.bind_eq_ok] at h
    obtain ⟨rest, ts₂, _, h⟩ := h
    injection h with h1 _
    subst h1
    exact List.cons_ne_nil _ _

/-- `Spanning.spanning` of a non-empty list is `some`, keeping the list. -/
theorem Spanning.spanning_ne_nil {l : List (Spanning α)} (hl : l ≠ []) :
    ∃ s, Spanning.spanning l = some s ∧ s.item = l := by
  match l with
  | [] => exact absurd rfl hl
  | x :: xs =>
    obtain ⟨y, hy⟩ := Option.isSome_iff_exists.mp
      (List.getLast?_isSome.mpr (List.cons_ne_nil x xs))
    exact ⟨⟨x.start, y.stop, x :: xs⟩, by simp [Spanning.spanning, hy], rfl⟩

/-- When the lookahead is `@`, a successful `parse_directives` is `some` of a
non-empty directive list. -/
theorem parse_directives_ok_at {fuel : Nat} {ts ts' : PState}
    {r : Option (Spanning (List (Spanning Directive)))}
    (hAt : (Parser.peek ts).item = Token.At)
    (h : parse_directives fuel ts = PR.ok r ts') :
    ∃ s, r = some s ∧ s.item ≠ [] := by
  unfold parse_directives at h
  rw [if_neg (by simp [hAt])] at h
  rw [PR.bind_eq_ok] at h
  obtain ⟨items, ts₁, hloop, h⟩ := h
  injection h with h1 _
  subst h1
  have hne := directives_loop_ok_cons hAt hloop
  obtain ⟨s, hs, hitem⟩ := Spanning.spanning_ne_nil hne
  exact ⟨s, hs.symm ▸ rfl, by rw [hitem]; exact hne⟩



/-! ## C2 — bare selection set operations. -/

/-- C2: when the lookahead is `{`, `parse_operation_definition` returns an
anonymous query: operation type `Query`, no name, no variable definitions, no
directives, and its span equals the span of the parsed selection set. -/
theorem parse_operation_definition_bare_selection
    (fuel : Nat) (ts ts' : PState) (r : Spanning Operation)
    (hpeek : (Parser.peek ts).item = Token.CurlyOpen)
    (h : parse_operation_definition fuel ts = PR.ok r ts') :
    r.item.operation_type = OperationType.Query ∧
    r.item.name = none ∧
    r.item.variable_definitions = none ∧
    r.item.directives = none ∧
    ∃ sel, parse_selection_set fuel ts = PR.ok sel ts' ∧
      r.start = sel.start ∧ r.stop = sel.stop ∧
      r.item.selection_set = sel.item := by
  unfold parse_operation_definition at h
  rw [if_pos hpeek, PR.bind_eq_ok] at h
  obtain ⟨sel, ts₁, hsel, hok⟩ := h
  injection hok with h1 h2
  subst h1
  subst h2
  exact ⟨rfl, rfl, rfl, rfl, sel, hsel, rfl, rfl, rfl⟩

/-- Witness for C2 on the concrete input `"{ a }"`. -/
theorem parse_operation_definition_bare_selection_witness :
    (⟨⟨0, 0, 0⟩, ⟨5, 0, 5⟩,
      ({ operation_type := OperationType.Query,
         name := none,
         variable_definitions := none,
         directives := none,
         selection_set := [Selection.Field ⟨⟨2, 0, 2⟩, ⟨3, 0, 3⟩,
           Field.mk none ⟨⟨2, 0, 2⟩, ⟨3, 0, 3⟩, "a"⟩ none none none⟩] } :
        Operation)⟩ : Spanning Operation).item.operation_type
      = OperationType.Query :=
  (parse_operation_definition_bare_selection 20 tokensBraceA
    [tk 5 5 Token.EndOfFile] _ rfl rfl).1

/-! ## C3 — `fragment on ...` is rejected at the offending name. -/

/-- C3: when the name following the keyword `fragment` is `on`,
`parse_fragment_definition` fails with `UnexpectedToken(Name("on"))` at the
span of that name token. -/
theorem parse_fragment_definition_on_name_error
    (fuel : Nat) (a n : STok) (rest : PState)
    (ha : a.item = Token.Name "fragment") (hn : n.item = Token.Name "on")
    (hrest : rest ≠ []) :
    parse_fragment_definition fuel (a :: n :: rest) =
      PR.err ⟨n.start, n.stop, ParseError.UnexpectedToken (Token.Name "on")⟩ := by
  obtain ⟨r0, rest', rfl⟩ : ∃ r0 rest', rest = r0 :: rest' := by
    cases rest with
    | nil => exact absurd rfl hrest
    | cons r0 rest' => exact ⟨r0, rest', rfl⟩
  unfold parse_fragment_definition
  simp [Parser.expect, Parser.peek, Parser.next, Parser.expect_name, ha, hn,
    Spanning.map]

/-- Witness for C3 on the concrete input `"fragment on on T { x }"`. -/
theorem parse_fragment_definition_on_name_error_witness :
    parse_fragment_definition 20 tokensFragmentOn =
      PR.err ⟨⟨9, 0, 9⟩, ⟨11, 0, 11⟩,
        ParseError.UnexpectedToken (Token.Name "on")⟩ :=
  parse_fragment_definition_on_name_error 20
    (tk 0 8 (Token.Name "fragment")) (tk 9 11 (Token.Name "on"))
    [tk 12 14 (Token.Name "on"), tk 15 16 (Token.Name "T"),
     tk 17 18 Token.CurlyOpen, tk 19 20 (Token.Name "x"),
     tk 21 22 Token.CurlyClose, tk 22 22 Token.EndOfFile]
    rfl rfl (List.cons_ne_nil _ _)

/-! ## C8 — at least one definition; empty input. -/

/-- C8: every accepted document holds at least one definition, and parsing
the empty input (the lexer emits only `EndOfFile`) fails with
`UnexpectedEndOfFile` at position zero. -/
theorem parse_document_nonempty_and_empty_input :
    (∀ (fuel : Nat) (ts ts' : PState) (doc : Document),
       parse_document fuel ts = PR.ok doc ts' → doc ≠ []) ∧
    parse_document 20 emptyInputTokens =
      PR.err ⟨pos0, pos0, ParseError.UnexpectedEndOfFile⟩ := by
  constructor
  · intro fuel ts ts' doc h
    match fuel with
    | 0 => simp [parse_document] at h
    | fuel + 1 =>
      unfold parse_document at h
      rw [PR.bind_eq_ok] at h
      obtain ⟨d, ts₁, _, h⟩ := h
      split at h
      · injection h with h1 _
        subst h1
        exact List.cons_ne_nil _ _
      · rw [PR.bind_eq_ok] at h
        obtain ⟨ds, ts₂, _, h⟩ := h
        injection h with h1 _
        subst h1
        exact List.cons_ne_nil _ _
  · rfl

/-- Witness for C8: the first conjunct applied to the parse of `"{ a }"`. -/
theorem parse_document_nonempty_and_empty_input_witness :
    docBraceA ≠ [] :=
  parse_document_nonempty_and_empty_input.1 20 tokensBraceA
    [tk 5 5 Token.EndOfFile] docBraceA rfl

/-! ## C4 — the trailing `!` promotion. -/

/-- C4: after the base form of a type, one trailing `!` is consumed and
promotes `Named` to `NonNullNamed` and `List` to `NonNullList`, leaving the
following tokens (in particular a second `!`) unconsumed; `"[Int!]!"` parses
to `NonNullList(NonNullNamed("Int"))`, and a second `!` after a complete type
surfaces as `UnexpectedToken(!)` in the enclosing production. -/
theorem parse_type_trailing_bang :
    (∀ (st en : SourcePosition) (name : String) (t : STok) (ts : PState),
       t.item = Token.ExclamationMark → ts ≠ [] →
       wrap_non_null ⟨st, en, TypeRef.Named name⟩ (t :: ts) =
         PR.ok ⟨st, t.stop, TypeRef.NonNullNamed name⟩ ts) ∧
    (∀ (st en : SourcePosition) (inner : TypeRef) (t : STok) (ts : PState),
       t.item = Token.ExclamationMark → ts ≠ [] →
       wrap_non_null ⟨st, en, TypeRef.List inner⟩ (t :: ts) =
         PR.ok ⟨st, t.stop, TypeRef.NonNullList inner⟩ ts) ∧
    parse_type 20 tokensNonNullList =
      PR.ok ⟨⟨0, 0, 0⟩, ⟨7, 0, 7⟩,
        TypeRef.NonNullList (TypeRef.NonNullNamed "Int")⟩
        [tk 7 7 Token.EndOfFile] ∧
    parse_document 20 tokensDoubleBang =
      PR.err ⟨⟨15, 0, 15⟩, ⟨16, 0, 16⟩,
        ParseError.UnexpectedToken Token.ExclamationMark⟩ := by
  refine ⟨?_, ?_, rfl, rfl⟩
  · intro st en name t ts ht hts
    obtain ⟨t₂, ts', rfl⟩ : ∃ t₂ ts', ts = t₂ :: ts' := by
      cases ts with
      | nil => exact absurd rfl hts
      | cons t₂ ts' => exact ⟨t₂, ts', rfl⟩
    simp [wrap_non_null, Parser.expect, Parser.peek, Parser.next, ht]
  · intro st en inner t ts ht hts
    obtain ⟨t₂, ts', rfl⟩ : ∃ t₂ ts', ts = t₂ :: ts' := by
      cases ts with
      | nil => exact absurd rfl hts
      | cons t₂ ts' => exact ⟨t₂, ts', rfl⟩
    simp [wrap_non_null, Parser.expect, Parser.peek, Parser.next, ht]

/-- Witness for C4: the `Named` promotion applied to `Int !`. -/
theorem parse_type_trailing_bang_witness :
    wrap_non_null ⟨⟨1, 0, 1⟩, ⟨4, 0, 4⟩, TypeRef.Named "Int"⟩
        [tk 4 5 Token.ExclamationMark, tk 5 6 Token.BracketClose] =
      PR.ok ⟨⟨1, 0, 1⟩, ⟨5, 0, 5⟩, TypeRef.NonNullNamed "Int"⟩
        [tk 5 6 Token.BracketClose] :=
  parse_type_trailing_bang.1 ⟨1, 0, 1⟩ ⟨4, 0, 4⟩ "Int"
    (tk 4 5 Token.ExclamationMark) [tk 5 6 Token.BracketClose]
    rfl (List.cons_ne_nil _ _)

/-! ## C5 — field alias disambiguation. -/

/-- C5: `parse_field` always consumes a first name; the field has
`alias = some first` and `name = second` exactly when a `:` follows the first
name, and otherwise `alias = none` and `name = first`. -/
theorem parse_field_alias_dispatch
    (fuel : Nat) (ts ts' : PState) (r : Spanning Field)
    (h : parse_field fuel ts = PR.ok r ts') :
    ∃ first ts₁, Parser.expect_name ts = PR.ok first ts₁ ∧
      (((Parser.peek ts₁).item = Token.Colon ∧
         ∃ second, r.item.aliasOf = some first ∧ r.item.name = second ∧
           ∃ c ts₂ ts₃, Parser.next ts₁ = PR.ok c ts₂ ∧
             Parser.expect_name ts₂ = PR.ok second ts₃) ∨
       ((Parser.peek ts₁).item ≠ Token.Colon ∧
         r.item.aliasOf = none ∧ r.item.name = first)) := by
  match fuel with
  | 0 => simp [parse_field] at h
  | fuel + 1 =>
    unfold parse_field at h
    rw [PR.bind_eq_ok] at h
    obtain ⟨first, ts₁, hfirst, h⟩ := h
    rw [PR.bind_eq_ok] at h
    obtain ⟨colon, ts₂, hskip, h⟩ := h
    refine ⟨first, ts₁, hfirst, ?_⟩
    unfold Parser.skip at hskip
    split at hskip
    · rename_i hc
      rw [PR.bind_eq_ok] at hskip
      obtain ⟨c, ts₂', hnext, heq⟩ := hskip
      injection heq with h1 h2
      subst h1
      subst h2
      simp only [PR.bind_eq_ok] at h
      obtain ⟨an, ts₃, ⟨second, ts₃', hsecond, heq2⟩, h⟩ := h
      injection heq2 with h3 h4
      subst h3
      subst h4
      obtain ⟨arguments, ts₄, _, h⟩ := h
      obtain ⟨directives, ts₅, _, h⟩ := h
      obtain ⟨selection_set, ts₆, _, h⟩ := h
      injection h with h5 h6
      subst h5
      exact Or.inl ⟨hc, second, rfl, rfl, c, ts₂', ts₃', hnext, hsecond⟩
    · rename_i hc
      injection hskip with h1 h2
      subst h1
      subst h2
      simp only [PR.bind_okl] at h
      rw [PR.bind_eq_ok] at h
      obtain ⟨arguments, ts₄, _, h⟩ := h
      rw [PR.bind_eq_ok] at h
      obtain ⟨directives, ts₅, _, h⟩ := h
      rw [PR.bind_eq_ok] at h
      obtain ⟨selection_set, ts₆, _, h⟩ := h
      injection h with h5 h6
      subst h5
      exact Or.inr ⟨hc, rfl, rfl⟩

/-! ## C6 — the fragment-form dispatch after `...`. -/

/-- C6: after consuming `...`, `parse_fragment` dispatches on the next token:
`Name("on")` gives an inline fragment with a type condition, `{` an inline
fragment with no type condition and no directives, any other name a fragment
spread with that name, `@` an inline fragment with no type condition and
directives present, and any other token is an `UnexpectedToken` error. -/
theorem parse_fragment_dispatch
    (fuel : Nat) (dots t : STok) (rest ts' : PState) (r : Selection)
    (hdots : dots.item = Token.Ellipsis) :
    (parse_fragment (fuel + 1) (dots :: t :: rest) = PR.ok r ts' →
      ((t.item = Token.Name "on" →
         ∃ f nm, r = Selection.InlineFragment f ∧
           f.item.type_condition = some nm ∧
           (Parser.peek rest).item = Token.Name nm.item) ∧
       (t.item = Token.CurlyOpen →
         ∃ f, r = Selection.InlineFragment f ∧
           f.item.type_condition = none ∧ f.item.directives = none) ∧
       (∀ s, t.item = Token.Name s → s ≠ "on" →
         ∃ f, r = Selection.FragmentSpread f ∧ f.item.name.item = s) ∧
       (t.item = Token.At →
         ∃ f, r = Selection.InlineFragment f ∧
           f.item.type_condition = none ∧ f.item.directives ≠ none))) ∧
    ((∀ s, t.item ≠ Token.Name s) → t.item ≠ Token.CurlyOpen →
      t.item ≠ Token.At → rest ≠ [] →
      parse_fragment (fuel + 1) (dots :: t :: rest) =
        PR.err ⟨t.start, t.stop, ParseError.UnexpectedToken t.item⟩) := by
  constructor
  · intro h
    unfold parse_fragment at h
    rw [show Parser.expect Token.Ellipsis (dots :: t :: rest)
          = PR.ok dots (t :: rest) by
        simp [Parser.expect, Parser.peek, Parser.next, hdots]] at h
    rw [PR.bind_okl] at h
    split at h
    · rename_i heq
      have ht : t.item = Token.Name "on" := heq
      rw [PR.bind_eq_ok] at h
      obtain ⟨u, ts₂, hnext, h⟩ := h
      have hshape := Parser.next_ok_shape hnext
      injection hshape with h1 h2
      subst h2
      rw [PR.bind_eq_ok] at h
      obtain ⟨nm, ts₃, hnm, h⟩ := h
      rw [PR.bind_eq_ok] at h
      obtain ⟨dirs, ts₄, _, h⟩ := h
      rw [PR.bind_eq_ok] at h
      obtain ⟨ss, ts₅, _, h⟩ := h
      injection h with h3 _
      subst h3
      refine ⟨fun _ => ⟨_, nm, rfl, rfl, Parser.expect_name_ok_peek hnm⟩,
        fun hc => ?_, fun s hs hne => ?_, fun hc => ?_⟩
      · rw [ht] at hc; exact absurd hc (by decide)
      · rw [ht] at hs; injection hs with hs'; exact absurd hs'.symm hne
      · rw [ht] at hc; exact absurd hc (by decide)
    · rename_i heq
      have ht : t.item = Token.CurlyOpen := heq
      rw [PR.bind_eq_ok] at h
      obtain ⟨ss, ts₂, _, h⟩ := h
      injection h with h3 _
      subst h3
      refine ⟨fun hc => ?_, fun _ => ⟨_, rfl, rfl, rfl⟩,
        fun s hs _ => ?_, fun hc => ?_⟩
      · rw [ht] at hc; exact absurd hc (by decide)
      · rw [ht] at hs; exact absurd hs (by simp)
      · rw [ht] at hc; exact absurd hc (by decide)
    · rename_i n hon heq
      have ht : t.item = Token.Name n := heq
      have hon' : t.item = Token.Name "on" → False := fun hc => by
        rw [ht] at hc
        injection hc with h4
        exact hon h4
      rw [PR.bind_eq_ok] at h
      obtain ⟨frag_name, ts₂, hfn, h⟩ := h
      rw [PR.bind_eq_ok] at h
      obtain ⟨dirs, ts₃, _, h⟩ := h
      injection h with h3 _
      subst h3
      have hfn' := Parser.expect_name_ok_peek hfn
      have hfrag : t.item = Token.Name frag_name.item := hfn'
      refine ⟨fun hc => absurd hc hon', fun hc => ?_, fun s hs _ => ?_,
        fun hc => ?_⟩
      · rw [ht] at hc; exact absurd hc (by simp)
      · refine ⟨_, rfl, ?_⟩
        rw [ht] at hfrag hs
        injection hfrag with h4
        injection hs with h5
        rw [← h4, h5]
      · rw [ht] at hc; exact absurd hc (by simp)
    · rename_i heq
      have ht : t.item = Token.At := heq
      have hAt : (Parser.peek (t :: rest)).item = Token.At := heq
      rw [PR.bind_eq_ok] at h
      obtain ⟨dirs, ts₂, hdirs, h⟩ := h
      rw [PR.bind_eq_ok] at h
      obtain ⟨ss, ts₃, _, h⟩ := h
      injection h with h3 _
      subst h3
      obtain ⟨s, hsome, hne⟩ := parse_directives_ok_at hAt hdirs
      refine ⟨fun hc => ?_, fun hc => ?_, fun s' hs _ => ?_,
        fun _ => ⟨_, rfl, rfl, ?_⟩⟩
      · rw [ht] at hc; exact absurd hc (by decide)
      · rw [ht] at hc; exact absurd hc (by decide)
      · rw [ht] at hs; exact absurd hs (by simp)
      · show (dirs.map Spanning.item) ≠ none
        rw [hsome]
        simp [Option.map]
    · rename_i u hon hcurly hname hat
      rw [PR.bind_eq_ok] at h
      obtain ⟨v, ts₂, _, h⟩ := h
      exact (PR.noConfusion h)
  · intro hname hcurly hat hrest
    obtain ⟨r0, rest', rfl⟩ : ∃ r0 rest', rest = r0 :: rest' := by
      cases rest with
      | nil => exact absurd rfl hrest
      | cons r0 rest' => exact ⟨r0, rest', rfl⟩
    unfold parse_fragment
    rw [show Parser.expect Token.Ellipsis (dots :: t :: r0 :: rest')
          = PR.ok dots (t :: r0 :: rest') by
        simp [Parser.expect, Parser.peek, Parser.next, hdots]]
    rw [PR.bind_okl]
    split
    · rename_i heq; exact absurd heq (hname "on")
    · rename_i heq; exact absurd heq hcurly
    · rename_i n _ heq; exact absurd heq (hname n)
    · rename_i heq; exact absurd heq hat
    · simp [Parser.next, Spanning.map]

/-- Witness for C6: the fragment-spread case applied to the concrete input
`"... G }"`. -/
theorem parse_fragment_dispatch_witness :
    ∃ f, Selection.FragmentSpread
        (⟨⟨2, 0, 2⟩, ⟨7, 0, 7⟩,
          ({ name := ⟨⟨6, 0, 6⟩, ⟨7, 0, 7⟩, "G"⟩, directives := none } :
            FragmentSpread)⟩ : Spanning FragmentSpread)
        = Selection.FragmentSpread f ∧ f.item.name.item = "G" :=
  ((parse_fragment_dispatch 19 (tk 2 5 Token.Ellipsis) (tk 6 7 (Token.Name "G"))
      [tk 8 9 Token.CurlyClose, tk 9 9 Token.EndOfFile]
      [tk 8 9 Token.CurlyClose, tk 9 9 Token.EndOfFile]
      (Selection.FragmentSpread ⟨⟨2, 0, 2⟩, ⟨7, 0, 7⟩,
        { name := ⟨⟨6, 0, 6⟩, ⟨7, 0, 7⟩, "G"⟩, directives := none }⟩)
      rfl).1 rfl).2.2.1 "G" rfl (by decide)

/-- Witness for C5 on the concrete input `"{ a }"`'s inner field `a`. -/
theorem parse_field_alias_dispatch_witness :
    ∃ first ts₁,
      Parser.expect_name [tk 2 3 (Token.Name "a"), tk 4 5 Token.CurlyClose,
        tk 5 5 Token.EndOfFile] = PR.ok first ts₁ ∧
      (((Parser.peek ts₁).item = Token.Colon ∧
         ∃ second,
           (Field.mk none ⟨⟨2, 0, 2⟩, ⟨3, 0, 3⟩, "a"⟩ none none none).aliasOf
             = some first ∧
           (Field.mk none ⟨⟨2, 0, 2⟩, ⟨3, 0, 3⟩, "a"⟩ none none none).name
             = second ∧
           ∃ c ts₂ ts₃, Parser.next ts₁ = PR.ok c ts₂ ∧
             Parser.expect_name ts₂ = PR.ok second ts₃) ∨
       ((Parser.peek ts₁).item ≠ Token.Colon ∧
         (Field.mk none ⟨⟨2, 0, 2⟩, ⟨3, 0, 3⟩, "a"⟩ none none none).aliasOf
           = none ∧
         (Field.mk none ⟨⟨2, 0, 2⟩, ⟨3, 0, 3⟩, "a"⟩ none none none).name
           = first)) :=
  parse_field_alias_dispatch 20
    [tk 2 3 (Token.Name "a"), tk 4 5 Token.CurlyClose, tk 5 5 Token.EndOfFile]
    [tk 4 5 Token.CurlyClose, tk 5 5 Token.EndOfFile]
    ⟨⟨2, 0, 2⟩, ⟨3, 0, 3⟩, Field.mk none ⟨⟨2, 0, 2⟩, ⟨3, 0, 3⟩, "a"⟩ none none none⟩
    rfl



/-- C9: the `Box<T>`/`&T` conversions are transparent delegations: boxing
succeeds exactly when the inner conversion does, fails exactly when it fails,
and both `to` impls return exactly the inner value's `InputValue`. -/
theorem box_conversions_transparent {α : Type}
    (fromT : InputValue → Option α) (toT : α → InputValue) :
    (∀ v x, box_from_input_value fromT v = some ⟨x⟩ ↔ fromT v = some x) ∧
    (∀ v, box_from_input_value fromT v = none ↔ fromT v = none) ∧
    (∀ b, box_to_input_value toT b = toT b.val) ∧
    (∀ r, ref_to_input_value toT r = toT r) := by
  refine ⟨fun v x => ?_, fun v => ?_, fun b => rfl, fun r => rfl⟩
  · unfold box_from_input_value
    cases h : fromT v with
    | some a => simp [Box.mk.injEq]
    | none => simp
  · unfold box_from_input_value
    cases h : fromT v <;> simp

/-- Witness for C9: boxing the identity conversion at `Null`. -/
theorem box_conversions_transparent_witness :
    box_from_input_value (fun v => some v) InputValue.Null =
      some ⟨InputValue.Null⟩ :=
  ((box_conversions_transparent (fun v => some v)
      (fun _ => InputValue.Null)).1 InputValue.Null InputValue.Null).mpr rfl



theorem keyCount_nil (k : String) : keyCount k [] = 0 := rfl

theorem keyCount_cons (k a b : String) (rest : List (String × String)) :
    keyCount k ((a, b) :: rest) =
      (if a = k then 1 else 0) + keyCount k rest := by
  by_cases h : a = k <;> simp [keyCount, h, Nat.add_comm]

/-- The loop succeeds exactly when, counting the registers already set, each
special key occurs at most once and every `variables` value parses. -/
theorem from_form_items_loop_ok_iff
    (jsonParse : String → Except String InputValue) :
    ∀ (items : List (String × String)) (q o : Option String)
      (vr : Option InputValue),
      exceptOk (from_form_items_loop jsonParse items q o vr) = true ↔
        (keyCount "query" items + (if q.isSome then 1 else 0) ≤ 1 ∧
         keyCount "operation_name" items + (if o.isSome then 1 else 0) ≤ 1 ∧
         keyCount "variables" items + (if vr.isSome then 1 else 0) ≤ 1 ∧
         ∀ v, ("variables", v) ∈ items → exceptOk (jsonParse v) = true) := by
  intro items
  induction items with
  | nil =>
    intro q o vr
    cases q <;> cases o <;> cases vr <;>
      simp [from_form_items_loop, exceptOk, keyCount]
  | cons head rest ih =>
    obtain ⟨key, value⟩ := head
    intro q o vr
    by_cases hk : key = "query"
    · subst hk
      cases q with
      | some qq =>
        rw [show from_form_items_loop jsonParse (("query", value) :: rest)
              (some qq) o vr =
            Except.error "Query parameter must not occur more than once" from
          by simp [from_form_items_loop]]
        constructor
        · intro h; exact absurd h (by simp [exceptOk])
        · rintro ⟨h1, -, -, -⟩
          rw [keyCount_cons] at h1
          simp at h1
      | none =>
        rw [show from_form_items_loop jsonParse (("query", value) :: rest)
              none o vr =
            from_form_items_loop jsonParse rest (some value) o vr from
          by simp [from_form_items_loop]]
        rw [ih (some value) o vr]
        simp only [keyCount_cons, List.mem_cons, Option.isSome_some,
          Option.isSome_none]
        constructor
        · rintro ⟨h1, h2, h3, h4⟩
          refine ⟨by simp at h1 ⊢; omega, by simp at h2 ⊢; omega,
            by simp at h3 ⊢; omega, ?_⟩
          intro v hv
          rcases hv with hv | hv
          · have hx : ("variables" : String) = "query" := congrArg Prod.fst hv
            exact absurd hx (by decide)
          · exact h4 v hv
        · rintro ⟨h1, h2, h3, h4⟩
          refine ⟨by simp at h1 ⊢; omega, by simp at h2 ⊢; omega,
            by simp at h3 ⊢; omega, fun v hv => h4 v (Or.inr hv)⟩
    · by_cases hk2 : key = "operation_name"
      · subst hk2
        cases o with
        | some oo =>
          rw [show from_form_items_loop jsonParse
                (("operation_name", value) :: rest) q (some oo) vr =
              Except.error
                "Operation name parameter must not occur more than once" from
            by simp [from_form_items_loop]]
          constructor
          · intro h; exact absurd h (by simp [exceptOk])
          · rintro ⟨-, h2, -, -⟩
            rw [keyCount_cons] at h2
            simp at h2
        | none =>
          rw [show from_form_items_loop jsonParse
                (("operation_name", value) :: rest) q none vr =
              from_form_items_loop jsonParse rest q (some value) vr from
            by simp [from_form_items_loop]]
          rw [ih q (some value) vr]
          simp only [keyCount_cons, List.mem_cons, Option.isSome_some,
            Option.isSome_none]
          constructor
          · rintro ⟨h1, h2, h3, h4⟩
            refine ⟨by simp at h1 ⊢; omega, by simp at h2 ⊢; omega,
              by simp at h3 ⊢; omega, ?_⟩
            intro v hv
            rcases hv with hv | hv
            · have hx : ("variables" : String) = "operation_name" :=
                congrArg Prod.fst hv
              exact absurd hx (by decide)
            · exact h4 v hv
          · rintro ⟨h1, h2, h3, h4⟩
            refine ⟨by simp at h1 ⊢; omega, by simp at h2 ⊢; omega,
              by simp at h3 ⊢; omega, fun v hv => h4 v (Or.inr hv)⟩
      · by_cases hk3 : key = "variables"
        · subst hk3
          cases vr with
          | some vv =>
            rw [show from_form_items_loop jsonParse
                  (("variables", value) :: rest) q o (some vv) =
                Except.error
                  "Variables parameter must not occur more than once" from
              by simp [from_form_items_loop]]
            constructor
            · intro h; exact absurd h (by simp [exceptOk])
            · rintro ⟨-, -, h3, -⟩
              rw [keyCount_cons] at h3
              simp at h3
          | none =>
            cases hjv : jsonParse value with
            | ok v =>
              rw [show from_form_items_loop jsonParse
                    (("variables", value) :: rest) q o none =
                  from_form_items_loop jsonParse rest q o (some v) from
                by simp [from_form_items_loop, hjv]]
              rw [ih q o (some v)]
              simp only [keyCount_cons, List.mem_cons, Option.isSome_some,
                Option.isSome_none]
              constructor
              · rintro ⟨h1, h2, h3, h4⟩
                refine ⟨by simp at h1 ⊢; omega, by simp at h2 ⊢; omega,
                  by simp at h3 ⊢; omega, ?_⟩
                intro w hw
                rcases hw with hw | hw
                · have : w = value := congrArg Prod.snd hw
                  rw [this, hjv]; rfl
                · exact h4 w hw
              · rintro ⟨h1, h2, h3, h4⟩
                refine ⟨by simp at h1 ⊢; omega, by simp at h2 ⊢; omega,
                  by simp at h3 ⊢; omega, fun w hw => h4 w (Or.inr hw)⟩
            | error e =>
              rw [show from_form_items_loop jsonParse
                    (("variables", value) :: rest) q o none =
                  Except.error e from by simp [from_form_items_loop, hjv]]
              constructor
              · intro h; exact absurd h (by simp [exceptOk])
              · rintro ⟨-, -, -, h4⟩
                have := h4 value (List.mem_cons_self _ _)
                rw [hjv] at this
                exact absurd this (by simp [exceptOk])
        · rw [show from_form_items_loop jsonParse ((key, value) :: rest)
                q o vr = from_form_items_loop jsonParse rest q o vr from
            by simp [from_form_items_loop, hk, hk2, hk3]]
          rw [ih q o vr]
          simp only [keyCount_cons, List.mem_cons]
          rw [if_neg hk, if_neg hk2, if_neg hk3]
          simp only [Nat.zero_add]
          constructor
          · rintro ⟨h1, h2, h3, h4⟩
            refine ⟨h1, h2, h3, ?_⟩
            intro v hv
            rcases hv with hv | hv
            · exact absurd (congrArg Prod.fst hv).symm hk3
            · exact h4 v hv
          · rintro ⟨h1, h2, h3, h4⟩
            exact ⟨h1, h2, h3, fun v hv => h4 v (Or.inr hv)⟩

/-- On success, the `query` register is set iff it was set initially or a
`query` item occurs in the remaining items. -/
theorem from_form_items_loop_query
    (jsonParse : String → Except String InputValue) :
    ∀ (items : List (String × String)) (q o : Option String)
      (vr : Option InputValue) (q' o' : Option String) (v' : Option InputValue),
      from_form_items_loop jsonParse items q o vr = Except.ok (q', o', v') →
      (q'.isSome = true ↔ q.isSome = true ∨ ∃ w, ("query", w) ∈ items) := by
  intro items
  induction items with
  | nil =>
    intro q o vr q' o' v' h
    simp [from_form_items_loop] at h
    obtain ⟨h1, h2, h3⟩ := h
    subst h1
    simp
  | cons head rest ih =>
    obtain ⟨key, value⟩ := head
    intro q o vr q' o' v' h
    by_cases hk : key = "query"
    · subst hk
      cases q with
      | some qq => simp [from_form_items_loop] at h
      | none =>
        rw [show from_form_items_loop jsonParse (("query", value) :: rest)
              none o vr =
            from_form_items_loop jsonParse rest (some value) o vr from
          by simp [from_form_items_loop]] at h
        rw [ih (some value) o vr q' o' v' h]
        simp
    · by_cases hk2 : key = "operation_name"
      · subst hk2
        cases o with
        | some oo => simp [from_form_items_loop] at h
        | none =>
          rw [show from_form_items_loop jsonParse
                (("operation_name", value) :: rest) q none vr =
              from_form_items_loop jsonParse rest q (some value) vr from
            by simp [from_form_items_loop]] at h
          rw [ih q (some value) vr q' o' v' h]
          constructor
          · rintro (h1 | ⟨w, hw⟩)
            · exact Or.inl h1
            · exact Or.inr ⟨w, List.mem_cons_of_mem _ hw⟩
          · rintro (h1 | ⟨w, hw⟩)
            · exact Or.inl h1
            · rcases List.mem_cons.mp hw with hw | hw
              · have hx : ("query" : String) = "operation_name" :=
                  congrArg Prod.fst hw
                exact absurd hx (by decide)
              · exact Or.inr ⟨w, hw⟩
      · by_cases hk3 : key = "variables"
        · subst hk3
          cases vr with
          | some vv => simp [from_form_items_loop] at h
          | none =>
            cases hjv : jsonParse value with
            | ok v =>
              rw [show from_form_items_loop jsonParse
                    (("variables", value) :: rest) q o none =
                  from_form_items_loop jsonParse rest q o (some v) from
                by simp [from_form_items_loop, hjv]] at h
              rw [ih q o (some v) q' o' v' h]
              constructor
              · rintro (h1 | ⟨w, hw⟩)
                · exact Or.inl h1
                · exact Or.inr ⟨w, List.mem_cons_of_mem _ hw⟩
              · rintro (h1 | ⟨w, hw⟩)
                · exact Or.inl h1
                · rcases List.mem_cons.mp hw with hw | hw
                  · have hx : ("query" : String) = "variables" :=
                      congrArg Prod.fst hw
                    exact absurd hx (by decide)
                  · exact Or.inr ⟨w, hw⟩
            | error e =>
              rw [show from_form_items_loop jsonParse
                    (("variables", value) :: rest) q o none =
                  Except.error e from by simp [from_form_items_loop, hjv]] at h
              simp at h
        · rw [show from_form_items_loop jsonParse ((key, value) :: rest)
                q o vr = from_form_items_loop jsonParse rest q o vr from
            by simp [from_form_items_loop, hk, hk2, hk3]] at h
          rw [ih q o vr q' o' v' h]
          constructor
          · rintro (h1 | ⟨w, hw⟩)
            · exact Or.inl h1
            · exact Or.inr ⟨w, List.mem_cons_of_mem _ hw⟩
          · rintro (h1 | ⟨w, hw⟩)
            · exact Or.inl h1
            · rcases List.mem_cons.mp hw with hw | hw
              · exact absurd (congrArg Prod.fst hw).symm hk
              · exact Or.inr ⟨w, hw⟩



/-- Unrecognized form keys are silently ignored by the loop. -/
theorem from_form_items_loop_filter
    (jsonParse : String → Except String InputValue) :
    ∀ (items : List (String × String)) (q o : Option String)
      (vr : Option InputValue),
      from_form_items_loop jsonParse items q o vr =
        from_form_items_loop jsonParse (items.filter recognizedKey) q o vr := by
  intro items
  induction items with
  | nil => intro q o vr; rfl
  | cons head rest ih =>
    obtain ⟨key, value⟩ := head
    intro q o vr
    by_cases hk : key = "query"
    · subst hk
      rw [show ((("query", value) :: rest).filter recognizedKey)
            = ("query", value) :: rest.filter recognizedKey from
          by simp [recognizedKey]]
      cases q with
      | some qq => simp [from_form_items_loop]
      | none =>
        rw [show from_form_items_loop jsonParse (("query", value) :: rest)
              none o vr
              = from_form_items_loop jsonParse rest (some value) o vr from
            by simp [from_form_items_loop],
          show from_form_items_loop jsonParse
              (("query", value) :: rest.filter recognizedKey) none o vr
              = from_form_items_loop jsonParse (rest.filter recognizedKey)
                  (some value) o vr from
            by simp [from_form_items_loop]]
        exact ih (some value) o vr
    · by_cases hk2 : key = "operation_name"
      · subst hk2
        rw [show ((("operation_name", value) :: rest).filter recognizedKey)
              = ("operation_name", value) :: rest.filter recognizedKey from
            by simp [recognizedKey]]
        cases o with
        | some oo => simp [from_form_items_loop]
        | none =>
          rw [show from_form_items_loop jsonParse
                (("operation_name", value) :: rest) q none vr
                = from_form_items_loop jsonParse rest q (some value) vr from
              by simp [from_form_items_loop],
            show from_form_items_loop jsonParse
                (("operation_name", value) :: rest.filter recognizedKey)
                q none vr
                = from_form_items_loop jsonParse (rest.filter recognizedKey)
                    q (some value) vr from
              by simp [from_form_items_loop]]
          exact ih q (some value) vr
      · by_cases hk3 : key = "variables"
        · subst hk3
          rw [show ((("variables", value) :: rest).filter recognizedKey)
                = ("variables", value) :: rest.filter recognizedKey from
              by simp [recognizedKey]]
          cases vr with
          | some vv => simp [from_form_items_loop]
          | none =>
            cases hjv : jsonParse value with
            | ok v =>
              rw [show from_form_items_loop jsonParse
                    (("variables", value) :: rest) q o none
                    = from_form_items_loop jsonParse rest q o (some v) from
                  by simp [from_form_items_loop, hjv],
                show from_form_items_loop jsonParse
                    (("variables", value) :: rest.filter recognizedKey)
                    q o none
                    = from_form_items_loop jsonParse
                        (rest.filter recognizedKey) q o (some v) from
                  by simp [from_form_items_loop, hjv]]
              exact ih q o (some v)
            | error e =>
              simp [from_form_items_loop, hjv]
        · rw [show (((key, value) :: rest).filter recognizedKey)
                = rest.filter recognizedKey from
              by simp [recognizedKey, hk, hk2, hk3]]
          rw [show from_form_items_loop jsonParse ((key, value) :: rest)
                q o vr = from_form_items_loop jsonParse rest q o vr from
            by simp [from_form_items_loop, hk, hk2, hk3]]
          exact ih q o vr

/-- C10: `from_form_items` succeeds iff a `query` key is present, none of
`query`/`operation_name`/`variables` occurs more than once and any
`variables` value parses as JSON; unrecognized keys are ignored (filtering
them out does not change the result), so `operation_name` and `variables`
are optional. -/
theorem from_form_items_ok_characterization
    (jsonParse : String → Except String InputValue)
    (items : List (String × String)) :
    (exceptOk (from_form_items jsonParse items) = true ↔
      ((∃ w, ("query", w) ∈ items) ∧
       keyCount "query" items ≤ 1 ∧
       keyCount "operation_name" items ≤ 1 ∧
       keyCount "variables" items ≤ 1 ∧
       ∀ v, ("variables", v) ∈ items → exceptOk (jsonParse v) = true)) ∧
    from_form_items jsonParse items =
      from_form_items jsonParse (items.filter recognizedKey) := by
  constructor
  · unfold from_form_items
    cases hloop : from_form_items_loop jsonParse items none none none with
    | error e =>
      have hbad : ¬(keyCount "query" items +
            (if (none : Option String).isSome then 1 else 0) ≤ 1 ∧
          keyCount "operation_name" items +
            (if (none : Option String).isSome then 1 else 0) ≤ 1 ∧
          keyCount "variables" items +
            (if (none : Option InputValue).isSome then 1 else 0) ≤ 1 ∧
          ∀ v, ("variables", v) ∈ items → exceptOk (jsonParse v) = true) := by
        rw [← from_form_items_loop_ok_iff jsonParse items none none none, hloop]
        simp [exceptOk]
      constructor
      · intro h; exact absurd h (by simp [exceptOk])
      · rintro ⟨-, h1, h2, h3, h4⟩
        exact absurd (by simpa using And.intro h1 (And.intro h2 (And.intro h3 h4))) hbad
    | ok triple =>
      obtain ⟨q', o', v'⟩ := triple
      have hconds := (from_form_items_loop_ok_iff jsonParse items
        none none none).mp (by rw [hloop]; rfl)
      have hq := from_form_items_loop_query jsonParse items
        none none none q' o' v' hloop
      simp only [Option.isSome_none, Bool.false_eq_true, false_or] at hq
      simp only [Option.isSome_none] at hconds
      cases q' with
      | some qq =>
        simp only [exceptOk]
        constructor
        · intro _
          refine ⟨hq.mp rfl, ?_, ?_, ?_, hconds.2.2.2⟩
          · have := hconds.1; simpa using this
          · have := hconds.2.1; simpa using this
          · have := hconds.2.2.1; simpa using this
        · intro _; trivial
      | none =>
        simp only [exceptOk]
        constructor
        · intro h; exact absurd h (by simp)
        · rintro ⟨hw, -⟩
          have : (none : Option String).isSome = true := hq.mpr hw
          simp at this
  · unfold from_form_items
    rw [← from_form_items_loop_filter]

/-! ## C1 — constant-mode values and defaults are variable-free. -/

/-- Constant-mode value parsing never produces a `Variable` node, at any
nesting depth; proved simultaneously for the list and object loops. -/
theorem value_const_varFree : ∀ fuel : Nat,
    (∀ ts v ts', parse_value_literal fuel true ts = PR.ok v ts' →
      v.item.varFree = true) ∧
    (∀ ts pair ts', value_list_loop fuel true ts = PR.ok pair ts' →
      varFreeList pair.1 = true) ∧
    (∀ ts pair ts', object_field_loop fuel true ts = PR.ok pair ts' →
      varFreeObject (pair.1.map Spanning.item) = true) ∧
    (∀ ts f ts', parse_object_field fuel true ts = PR.ok f ts' →
      f.item.2.item.varFree = true) := by
  intro fuel
  induction fuel with
  | zero =>
    refine ⟨?_, ?_, ?_, ?_⟩ <;> intro ts x ts' h <;>
      simp [parse_value_literal, value_list_loop, object_field_loop,
        parse_object_field] at h
  | succ fuel ih =>
    obtain ⟨ih1, ih2, ih3, ih4⟩ := ih
    refine ⟨?_, ?_, ?_, ?_⟩
    · intro ts v ts' h
      unfold parse_value_literal at h
      split at h
      · rw [if_pos rfl] at h
        rw [PR.bind_eq_ok] at h
        obtain ⟨u, ts₂, -, h⟩ := h
        exact (PR.noConfusion h)
      · rw [PR.bind_eq_ok] at h
        obtain ⟨t, ts₂, -, h⟩ := h
        injection h with h1 _
        subst h1
        rfl
      · rw [PR.bind_eq_ok] at h
        obtain ⟨t, ts₂, -, h⟩ := h
        injection h with h1 _
        subst h1
        rfl
      · rw [PR.bind_eq_ok] at h
        obtain ⟨t, ts₂, -, h⟩ := h
        injection h with h1 _
        subst h1
        rfl
      · rw [PR.bind_eq_ok] at h
        obtain ⟨t, ts₂, -, h⟩ := h
        injection h with h1 _
        subst h1
        rfl
      · rw [PR.bind_eq_ok] at h
        obtain ⟨t, ts₂, -, h⟩ := h
        injection h with h1 _
        subst h1
        rfl
      · rw [PR.bind_eq_ok] at h
        obtain ⟨t, ts₂, -, h⟩ := h
        injection h with h1 _
        subst h1
        rfl
      · rw [PR.bind_eq_ok] at h
        obtain ⟨t, ts₂, -, h⟩ := h
        injection h with h1 _
        subst h1
        rfl
      · rw [PR.bind_eq_ok] at h
        obtain ⟨op, ts₂, -, h⟩ := h
        rw [PR.bind_eq_ok] at h
        obtain ⟨pair, ts₃, hloop, h⟩ := h
        injection h with h1 _
        subst h1
        exact ih2 ts₂ pair ts₃ hloop
      · rw [PR.bind_eq_ok] at h
        obtain ⟨op, ts₂, -, h⟩ := h
        rw [PR.bind_eq_ok] at h
        obtain ⟨pair, ts₃, hloop, h⟩ := h
        injection h with h1 _
        subst h1
        exact ih3 ts₂ pair ts₃ hloop
      · rw [PR.bind_eq_ok] at h
        obtain ⟨u, ts₂, -, h⟩ := h
        exact (PR.noConfusion h)
    · intro ts pair ts' h
      unfold value_list_loop at h
      rw [PR.bind_eq_ok] at h
      obtain ⟨cl, ts₁, -, h⟩ := h
      cases cl with
      | some c =>
        injection h with h1 _
        subst h1
        rfl
      | none =>
        rw [PR.bind_eq_ok] at h
        obtain ⟨v, ts₂, hv, h⟩ := h
        rw [PR.bind_eq_ok] at h
        obtain ⟨rest, ts₃, hrest, h⟩ := h
        injection h with h1 _
        subst h1
        show (v.item.varFree && varFreeList rest.1) = true
        rw [ih1 ts₁ v ts₂ hv, ih2 ts₂ rest ts₃ hrest]
        rfl
    · intro ts pair ts' h
      unfold object_field_loop at h
      rw [PR.bind_eq_ok] at h
      obtain ⟨cl, ts₁, -, h⟩ := h
      cases cl with
      | some c =>
        injection h with h1 _
        subst h1
        rfl
      | none =>
        rw [PR.bind_eq_ok] at h
        obtain ⟨f, ts₂, hf, h⟩ := h
        rw [PR.bind_eq_ok] at h
        obtain ⟨rest, ts₃, hrest, h⟩ := h
        injection h with h1 _
        subst h1
        show (f.item.2.item.varFree && varFreeObject (rest.1.map Spanning.item)) = true
        rw [ih4 ts₁ f ts₂ hf, ih3 ts₂ rest ts₃ hrest]
        rfl
    · intro ts f ts' h
      unfold parse_object_field at h
      rw [PR.bind_eq_ok] at h
      obtain ⟨n, ts₁, -, h⟩ := h
      rw [PR.bind_eq_ok] at h
      obtain ⟨c, ts₂, -, h⟩ := h
      rw [PR.bind_eq_ok] at h
      obtain ⟨v, ts₃, hv, h⟩ := h
      injection h with h1 _
      subst h1
      exact ih1 ts₂ v ts₃ hv

/-- A parsed variable definition's default value, when present, is
variable-free: the default is parsed in constant mode. -/
theorem parse_variable_definition_default_varFree
    {fuel : Nat} {ts ts' : PState}
    {d : Spanning (Spanning String × VariableDefinition)}
    (h : parse_variable_definition fuel ts = PR.ok d ts') :
    d.item.2.defaultVarFree := by
  unfold parse_variable_definition at h
  rw [PR.bind_eq_ok] at h
  obtain ⟨dollar, ts₁, -, h⟩ := h
  rw [PR.bind_eq_ok] at h
  obtain ⟨var_name, ts₂, -, h⟩ := h
  rw [PR.bind_eq_ok] at h
  obtain ⟨c, ts₃, -, h⟩ := h
  rw [PR.bind_eq_ok] at h
  obtain ⟨var_type, ts₄, -, h⟩ := h
  rw [PR.bind_eq_ok] at h
  obtain ⟨eq, ts₅, -, h⟩ := h
  rw [PR.bind_eq_ok] at h
  obtain ⟨dv, ts₆, hdv, h⟩ := h
  injection h with h1 _
  subst h1
  cases eq with
  | some e =>
    replace hdv : (parse_value_literal fuel true ts₅).bind
        (fun v ts6 => PR.ok (some v) ts6) = PR.ok dv ts₆ := hdv
    rw [PR.bind_eq_ok] at hdv
    obtain ⟨v, ts₇, hv, heq⟩ := hdv
    injection heq with h2 h3
    subst h2
    intro w hw
    injection hw with h4
    subst h4
    exact (value_const_varFree fuel).1 ts₅ v ts₇ hv
  | none =>
    replace hdv : PR.ok (none : Option (Spanning InputValue)) ts₅
        = PR.ok dv ts₆ := hdv
    injection hdv with h2 h3
    subst h2
    intro w hw
    exact absurd hw (by simp)

/-- Every variable definition collected by the loop has a variable-free
default. -/
theorem variable_definitions_loop_varFree : ∀ (fuel : Nat) {ts ts' : PState}
    {pair : List (Spanning (Spanning String × VariableDefinition)) ×
      SourcePosition},
    variable_definitions_loop fuel ts = PR.ok pair ts' →
    ∀ d ∈ pair.1, d.item.2.defaultVarFree := by
  intro fuel
  induction fuel with
  | zero =>
    intro ts ts' pair h
    simp [variable_definitions_loop] at h
  | succ fuel ih =>
    intro ts ts' pair h
    unfold variable_definitions_loop at h
    rw [PR.bind_eq_ok] at h
    obtain ⟨d, ts₁, hd, h⟩ := h
    rw [PR.bind_eq_ok] at h
    obtain ⟨cl, ts₂, -, h⟩ := h
    cases cl with
    | some c =>
      injection h with h1 _
      subst h1
      intro x hx
      rw [List.mem_singleton] at hx
      subst hx
      exact parse_variable_definition_default_varFree hd
    | none =>
      rw [PR.bind_eq_ok] at h
      obtain ⟨rest, ts₃, hrest, h⟩ := h
      injection h with h1 _
      subst h1
      intro x hx
      rcases List.mem_cons.mp hx with hx | hx
      · subst hx
        exact parse_variable_definition_default_varFree hd
      · exact ih hrest x hx

/-- A present parsed variable-definitions group has variable-free
defaults. -/
theorem parse_variable_definitions_varFree
    {fuel : Nat} {ts ts' : PState}
    {r : Option (Spanning VariableDefinitions)}
    (h : parse_variable_definitions fuel ts = PR.ok r ts') :
    ∀ s, r = some s → ∀ p ∈ s.item.items, p.2.defaultVarFree := by
  unfold parse_variable_definitions at h
  split at h
  · injection h with h1 _
    subst h1
    intro s hs
    exact absurd hs (by simp)
  · rw [PR.bind_eq_ok] at h
    obtain ⟨op, ts₁, -, h⟩ := h
    rw [PR.bind_eq_ok] at h
    obtain ⟨pair, ts₂, hloop, h⟩ := h
    injection h with h1 _
    subst h1
    intro s hs
    injection hs with h2
    subst h2
    intro p hp
    simp only [List.mem_map] at hp
    obtain ⟨d, hd, hdp⟩ := hp
    subst hdp
    exact variable_definitions_loop_varFree fuel hloop d hd

/-- A parsed operation's variable definitions all have variable-free
defaults. -/
theorem parse_operation_definition_varFree
    {fuel : Nat} {ts ts' : PState} {op : Spanning Operation}
    (h : parse_operation_definition fuel ts = PR.ok op ts') :
    ∀ s, op.item.variable_definitions = some s →
      ∀ p ∈ s.item.items, p.2.defaultVarFree := by
  unfold parse_operation_definition at h
  split at h
  · rw [PR.bind_eq_ok] at h
    obtain ⟨sel, ts₁, -, h⟩ := h
    injection h with h1 _
    subst h1
    intro s hs
    exact absurd hs (by simp)
  · simp only [PR.bind_eq_ok] at h
    obtain ⟨ot, ts₁, -, nm, ts₂, -, vd, ts₃, hvd, dirs, ts₄, -, sel, ts₅, -, h⟩ := h
    injection h with h1 _
    subst h1
    exact parse_variable_definitions_varFree hvd

/-- A parsed top-level definition has variable-free defaults. -/
theorem parse_definition_defaultsVarFree
    {fuel : Nat} {ts ts' : PState} {d : Definition}
    (h : parse_definition fuel ts = PR.ok d ts') :
    d.defaultsVarFree := by
  unfold parse_definition at h
  split at h
  · rw [PR.bind_eq_ok] at h
    obtain ⟨op, ts₁, hop, h⟩ := h
    injection h with h1 _
    subst h1
    exact parse_operation_definition_varFree hop
  · rw [PR.bind_eq_ok] at h
    obtain ⟨op, ts₁, hop, h⟩ := h
    injection h with h1 _
    subst h1
    exact parse_operation_definition_varFree hop
  · rw [PR.bind_eq_ok] at h
    obtain ⟨op, ts₁, hop, h⟩ := h
    injection h with h1 _
    subst h1
    exact parse_operation_definition_varFree hop
  · rw [PR.bind_eq_ok] at h
    obtain ⟨f, ts₁, -, h⟩ := h
    injection h with h1 _
    subst h1
    trivial
  · rw [PR.bind_eq_ok] at h
    obtain ⟨u, ts₁, -, h⟩ := h
    exact (PR.noConfusion h)

/-- C1: variable-definition defaults are parsed in constant mode: constant
mode never produces a `Variable` node at any depth, and in every accepted
document every variable definition's default value is variable-free. -/
theorem parse_document_defaults_variable_free :
    (∀ (fuel : Nat) (ts ts' : PState) (doc : Document),
       parse_document fuel ts = PR.ok doc ts' →
       ∀ d ∈ doc, d.defaultsVarFree) ∧
    (∀ (fuel : Nat) (ts ts' : PState) (v : Spanning InputValue),
       parse_value_literal fuel true ts = PR.ok v ts' →
       v.item.varFree = true) := by
  constructor
  · intro fuel
    induction fuel with
    | zero =>
      intro ts ts' doc h
      simp [parse_document] at h
    | succ fuel ih =>
      intro ts ts' doc h
      unfold parse_document at h
      rw [PR.bind_eq_ok] at h
      obtain ⟨d, ts₁, hd, h⟩ := h
      split at h
      · injection h with h1 _
        subst h1
        intro x hx
        rw [List.mem_singleton] at hx
        subst hx
        exact parse_definition_defaultsVarFree hd
      · rw [PR.bind_eq_ok] at h
        obtain ⟨ds, ts₂, hrest, h⟩ := h
        injection h with h1 _
        subst h1
        intro x hx
        rcases List.mem_cons.mp hx with hx | hx
        · subst hx
          exact parse_definition_defaultsVarFree hd
        · exact ih ts₁ ts₂ ds hrest x hx
  · intro fuel ts ts' v h
    exact (value_const_varFree fuel).1 ts v ts' h

/-- Witness for C1 on the parse of `"query ($e: Int = 5) { a }"`. -/
theorem parse_document_defaults_variable_free_witness :
    ∀ d ∈ docVarDefault, d.defaultsVarFree :=
  parse_document_defaults_variable_free.1 30 tokensVarDefault
    [tk 25 25 Token.EndOfFile] docVarDefault rfl

/-! ## C7 — present optional groups are non-empty. -/

/-- Any successful pass of the argument-list loop is non-empty. -/
theorem arguments_loop_ok_cons {fuel : Nat} {ts ts' : PState}
    {pair : List (Spanning (Spanning String × Spanning InputValue)) ×
      SourcePosition}
    (h : arguments_loop fuel ts = PR.ok pair ts') : pair.1 ≠ [] := by
  match fuel with
  | 0 => simp [arguments_loop] at h
  | fuel + 1 =>
    unfold arguments_loop at h
    rw [PR.bind_eq_ok] at h
    obtain ⟨a, ts₁, -, h⟩ := h
    rw [PR.bind_eq_ok] at h
    obtain ⟨cl, ts₂, -, h⟩ := h
    cases cl with
    | some c =>
      injection h with h1 _
      rw [← h1]
      exact List.cons_ne_nil _ _
    | none =>
      rw [PR.bind_eq_ok] at h
      obtain ⟨rest, ts₃, -, h⟩ := h
      injection h with h1 _
      rw [← h1]
      exact List.cons_ne_nil _ _

/-- A present parsed arguments group is non-empty. -/
theorem parse_arguments_groupsOk {fuel : Nat} {ts ts' : PState}
    {r : Option (Spanning Arguments)}
    (h : parse_arguments fuel ts = PR.ok r ts') : argsOptOk r = true := by
  unfold parse_arguments at h
  split at h
  · injection h with h1 _
    subst h1
    rfl
  · rw [PR.bind_eq_ok] at h
    obtain ⟨op, ts₁, -, h⟩ := h
    rw [PR.bind_eq_ok] at h
    obtain ⟨pair, ts₂, hloop, h⟩ := h
    injection h with h1 _
    subst h1
    have hne := arguments_loop_ok_cons hloop
    simp [argsOptOk, hne]

/-- Any successful pass of the variable-definitions loop is non-empty. -/
theorem variable_definitions_loop_ok_cons {fuel : Nat} {ts ts' : PState}
    {pair : List (Spanning (Spanning String × VariableDefinition)) ×
      SourcePosition}
    (h : variable_definitions_loop fuel ts = PR.ok pair ts') : pair.1 ≠ [] := by
  match fuel with
  | 0 => simp [variable_definitions_loop] at h
  | fuel + 1 =>
    unfold variable_definitions_loop at h
    rw [PR.bind_eq_ok] at h
    obtain ⟨d, ts₁, -, h⟩ := h
    rw [PR.bind_eq_ok] at h
    obtain ⟨cl, ts₂, -, h⟩ := h
    cases cl with
    | some c =>
      injection h with h1 _
      rw [← h1]
      exact List.cons_ne_nil _ _
    | none =>
      rw [PR.bind_eq_ok] at h
      obtain ⟨rest, ts₃, -, h⟩ := h
      injection h with h1 _
      rw [← h1]
      exact List.cons_ne_nil _ _

/-- A present parsed variable-definitions group is non-empty. -/
theorem parse_variable_definitions_groupsOk {fuel : Nat} {ts ts' : PState}
    {r : Option (Spanning VariableDefinitions)}
    (h : parse_variable_definitions fuel ts = PR.ok r ts') :
    vardefsOptOk r = true := by
  unfold parse_variable_definitions at h
  split at h
  · injection h with h1 _
    subst h1
    rfl
  · rw [PR.bind_eq_ok] at h
    obtain ⟨op, ts₁, -, h⟩ := h
    rw [PR.bind_eq_ok] at h
    obtain ⟨pair, ts₂, hloop, h⟩ := h
    injection h with h1 _
    subst h1
    have hne := variable_definitions_loop_ok_cons hloop
    simp [vardefsOptOk, hne]

/-- A parsed directive's own arguments group is non-empty when present. -/
theorem parse_directive_groupsOk {fuel : Nat} {ts ts' : PState}
    {d : Spanning Directive}
    (h : parse_directive fuel ts = PR.ok d ts') :
    argsOptOk d.item.arguments = true := by
  unfold parse_directive at h
  rw [PR.bind_eq_ok] at h
  obtain ⟨at_tok, ts₁, -, h⟩ := h
  rw [PR.bind_eq_ok] at h
  obtain ⟨name, ts₂, -, h⟩ := h
  rw [PR.bind_eq_ok] at h
  obtain ⟨arguments, ts₃, hargs, h⟩ := h
  injection h with h1 _
  subst h1
  exact parse_arguments_groupsOk hargs

/-- Every directive collected by the directive run has a non-empty
arguments group when present. -/
theorem directives_loop_groupsOk : ∀ (fuel : Nat) {ts ts' : PState}
    {l : List (Spanning Directive)},
    directives_loop fuel ts = PR.ok l ts' → dirListOk l = true := by
  intro fuel
  induction fuel with
  | zero =>
    intro ts ts' l h
    simp [directives_loop] at h
  | succ fuel ih =>
    intro ts ts' l h
    unfold directives_loop at h
    split at h
    · rw [PR.bind_eq_ok] at h
      obtain ⟨d, ts₁, hd, h⟩ := h
      rw [PR.bind_eq_ok] at h
      obtain ⟨rest, ts₂, hrest, h⟩ := h
      injection h with h1 _
      subst h1
      have h2 := parse_directive_groupsOk hd
      have h3 := ih hrest
      simp [dirListOk] at h3 ⊢
      exact ⟨h2, h3⟩
    · injection h with h1 _
      subst h1
      rfl

/-- A parsed directives group is non-empty when present, and its directives
have non-empty argument groups when present. -/
theorem parse_directives_groupsOk {fuel : Nat} {ts ts' : PState}
    {r : Option (Spanning (List (Spanning Directive)))}
    (h : parse_directives fuel ts = PR.ok r ts') :
    dirsOptOk (r.map Spanning.item) = true := by
  unfold parse_directives at h
  split at h
  · injection h with h1 _
    subst h1
    rfl
  · rename_i hne
    have hAt : (Parser.peek ts).item = Token.At := by
      by_contra hc
      exact hne hc
    rw [PR.bind_eq_ok] at h
    obtain ⟨items, ts₁, hloop, h⟩ := h
    injection h with h1 _
    subst h1
    have hcons := directives_loop_ok_cons hAt hloop
    have hlist := directives_loop_groupsOk fuel hloop
    obtain ⟨s, hs, hitem⟩ := Spanning.spanning_ne_nil hcons
    rw [hs]
    simp [dirsOptOk, Option.map, hitem, hcons, hlist]

/-- Group non-emptiness across the selection layer, proved simultaneously
for all mutually recursive selection parsers. -/
theorem selection_layer_groupsOk : ∀ fuel : Nat,
    (∀ ts s ts', parse_selection_set fuel ts = PR.ok s ts' →
       selectionsOk s.item = true) ∧
    (∀ ts pair ts', selection_loop fuel ts = PR.ok pair ts' →
       selectionsOk pair.1 = true) ∧
    (∀ ts sel ts', parse_selection fuel ts = PR.ok sel ts' →
       sel.groupsOk = true) ∧
    (∀ ts sel ts', parse_fragment fuel ts = PR.ok sel ts' →
       sel.groupsOk = true) ∧
    (∀ ts f ts', parse_field fuel ts = PR.ok f ts' →
       f.item.groupsOk = true) ∧
    (∀ ts r ts', parse_optional_selection_set fuel ts = PR.ok r ts' →
       optSelectionsOk (r.map Spanning.item) = true) := by
  intro fuel
  induction fuel with
  | zero =>
    refine ⟨?_, ?_, ?_, ?_, ?_, ?_⟩ <;> intro ts x ts' h <;>
      simp [parse_selection_set, selection_loop, parse_selection,
        parse_fragment, parse_field, parse_optional_selection_set] at h
  | succ fuel ih =>
    obtain ⟨ihset, ihloop, ihsel, ihfrag, ihfield, ihopt⟩ := ih
    refine ⟨?_, ?_, ?_, ?_, ?_, ?_⟩
    · intro ts s ts' h
      unfold parse_selection_set at h
      rw [PR.bind_eq_ok] at h
      obtain ⟨op, ts₁, -, h⟩ := h
      rw [PR.bind_eq_ok] at h
      obtain ⟨pair, ts₂, hloop, h⟩ := h
      injection h with h1 _
      subst h1
      exact ihloop ts₁ pair ts₂ hloop
    · intro ts pair ts' h
      unfold selection_loop at h
      rw [PR.bind_eq_ok] at h
      obtain ⟨sel, ts₁, hsel, h⟩ := h
      rw [PR.bind_eq_ok] at h
      obtain ⟨cl, ts₂, -, h⟩ := h
      cases cl with
      | some c =>
        injection h with h1 _
        subst h1
        simp [selectionsOk, ihsel ts sel ts₁ hsel]
      | none =>
        rw [PR.bind_eq_ok] at h
        obtain ⟨rest, ts₃, hrest, h⟩ := h
        injection h with h1 _
        subst h1
        simp [selectionsOk, ihsel ts sel ts₁ hsel, ihloop ts₂ rest ts₃ hrest]
    · intro ts sel ts' h
      unfold parse_selection at h
      split at h
      · exact ihfrag ts sel ts' h
      · rw [PR.bind_eq_ok] at h
        obtain ⟨f, ts₁, hf, h⟩ := h
        injection h with h1 _
        subst h1
        simp [Selection.groupsOk, ihfield ts f ts₁ hf]
    · intro ts sel ts' h
      unfold parse_fragment at h
      rw [PR.bind_eq_ok] at h
      obtain ⟨dots, ts₁, -, h⟩ := h
      split at h
      · rw [PR.bind_eq_ok] at h
        obtain ⟨u, ts₂, -, h⟩ := h
        rw [PR.bind_eq_ok] at h
        obtain ⟨name, ts₃, -, h⟩ := h
        rw [PR.bind_eq_ok] at h
        obtain ⟨dirs, ts₄, hdirs, h⟩ := h
        rw [PR.bind_eq_ok] at h
        obtain ⟨ss, ts₅, hss, h⟩ := h
        injection h with h1 _
        subst h1
        simp [Selection.groupsOk, InlineFragment.groupsOk,
          parse_directives_groupsOk hdirs, ihset ts₄ ss ts₅ hss]
      · rw [PR.bind_eq_ok] at h
        obtain ⟨ss, ts₂, hss, h⟩ := h
        injection h with h1 _
        subst h1
        simp [Selection.groupsOk, InlineFragment.groupsOk, dirsOptOk,
          ihset ts₁ ss ts₂ hss]
      · rw [PR.bind_eq_ok] at h
        obtain ⟨frag_name, ts₂, -, h⟩ := h
        rw [PR.bind_eq_ok] at h
        obtain ⟨dirs, ts₃, hdirs, h⟩ := h
        injection h with h1 _
        subst h1
        simp [Selection.groupsOk, parse_directives_groupsOk hdirs]
      · rw [PR.bind_eq_ok] at h
        obtain ⟨dirs, ts₂, hdirs, h⟩ := h
        rw [PR.bind_eq_ok] at h
        obtain ⟨ss, ts₃, hss, h⟩ := h
        injection h with h1 _
        subst h1
        simp [Selection.groupsOk, InlineFragment.groupsOk,
          parse_directives_groupsOk hdirs, ihset ts₂ ss ts₃ hss]
      · rw [PR.bind_eq_ok] at h
        obtain ⟨u, ts₂, -, h⟩ := h
        exact (PR.noConfusion h)
    · intro ts f ts' h
      unfold parse_field at h
      rw [PR.bind_eq_ok] at h
      obtain ⟨first, ts₁, -, h⟩ := h
      rw [PR.bind_eq_ok] at h
      obtain ⟨colon, ts₂, -, h⟩ := h
      rw [PR.bind_eq_ok] at h
      obtain ⟨an, ts₃, -, h⟩ := h
      rw [PR.bind_eq_ok] at h
      obtain ⟨arguments, ts₄, hargs, h⟩ := h
      rw [PR.bind_eq_ok] at h
      obtain ⟨dirs, ts₅, hdirs, h⟩ := h
      rw [PR.bind_eq_ok] at h
      obtain ⟨sels, ts₆, hsels, h⟩ := h
      injection h with h1 _
      subst h1
      simp [Field.groupsOk, parse_arguments_groupsOk hargs,
        parse_directives_groupsOk hdirs, ihopt ts₅ sels ts₆ hsels]
    · intro ts r ts' h
      unfold parse_optional_selection_set at h
      split at h
      · rw [PR.bind_eq_ok] at h
        obtain ⟨s, ts₁, hs, h⟩ := h
        injection h with h1 _
        subst h1
        simp [optSelectionsOk, Option.map, ihset ts s ts₁ hs]
      · injection h with h1 _
        subst h1
        rfl

/-- All optional groups of a parsed operation are non-empty when present. -/
theorem parse_operation_definition_groupsOk {fuel : Nat} {ts ts' : PState}
    {op : Spanning Operation}
    (h : parse_operation_definition fuel ts = PR.ok op ts') :
    op.item.groupsOk = true := by
  unfold parse_operation_definition at h
  split at h
  · rw [PR.bind_eq_ok] at h
    obtain ⟨sel, ts₁, hsel, h⟩ := h
    injection h with h1 _
    subst h1
    simp [Operation.groupsOk, vardefsOptOk, dirsOptOk,
      (selection_layer_groupsOk fuel).1 ts sel ts₁ hsel]
  · rw [PR.bind_eq_ok] at h
    obtain ⟨ot, ts₁, -, h⟩ := h
    rw [PR.bind_eq_ok] at h
    obtain ⟨nm, ts₂, -, h⟩ := h
    rw [PR.bind_eq_ok] at h
    obtain ⟨vd, ts₃, hvd, h⟩ := h
    rw [PR.bind_eq_ok] at h
    obtain ⟨dirs, ts₄, hdirs, h⟩ := h
    rw [PR.bind_eq_ok] at h
    obtain ⟨sel, ts₅, hsel, h⟩ := h
    injection h with h1 _
    subst h1
    simp [Operation.groupsOk, parse_variable_definitions_groupsOk hvd,
      parse_directives_groupsOk hdirs,
      (selection_layer_groupsOk fuel).1 ts₄ sel ts₅ hsel]

/-- All optional groups of a parsed fragment definition are non-empty when
present. -/
theorem parse_fragment_definition_groupsOk {fuel : Nat} {ts ts' : PState}
    {f : Spanning Fragment}
    (h : parse_fragment_definition fuel ts = PR.ok f ts') :
    f.item.groupsOk = true := by
  unfold parse_fragment_definition at h
  rw [PR.bind_eq_ok] at h
  obtain ⟨kw, ts₁, -, h⟩ := h
  rw [PR.bind_eq_ok] at h
  obtain ⟨n, ts₂, -, h⟩ := h
  rw [PR.bind_eq_ok] at h
  obtain ⟨name, ts₃, -, h⟩ := h
  rw [PR.bind_eq_ok] at h
  obtain ⟨onk, ts₄, -, h⟩ := h
  rw [PR.bind_eq_ok] at h
  obtain ⟨type_cond, ts₅, -, h⟩ := h
  rw [PR.bind_eq_ok] at h
  obtain ⟨dirs, ts₆, hdirs, h⟩ := h
  rw [PR.bind_eq_ok] at h
  obtain ⟨sel, ts₇, hsel, h⟩ := h
  injection h with h1 _
  subst h1
  simp [Fragment.groupsOk, parse_directives_groupsOk hdirs,
    (selection_layer_groupsOk fuel).1 ts₆ sel ts₇ hsel]

/-- All optional groups of a parsed top-level definition are non-empty when
present. -/
theorem parse_definition_groupsOk {fuel : Nat} {ts ts' : PState}
    {d : Definition}
    (h : parse_definition fuel ts = PR.ok d ts') :
    d.groupsOk = true := by
  unfold parse_definition at h
  split at h
  · rw [PR.bind_eq_ok] at h
    obtain ⟨op, ts₁, hop, h⟩ := h
    injection h with h1 _
    subst h1
    exact parse_operation_definition_groupsOk hop
  · rw [PR.bind_eq_ok] at h
    obtain ⟨op, ts₁, hop, h⟩ := h
    injection h with h1 _
    subst h1
    exact parse_operation_definition_groupsOk hop
  · rw [PR.bind_eq_ok] at h
    obtain ⟨op, ts₁, hop, h⟩ := h
    injection h with h1 _
    subst h1
    exact parse_operation_definition_groupsOk hop
  · rw [PR.bind_eq_ok] at h
    obtain ⟨fr, ts₁, hfr, h⟩ := h
    injection h with h1 _
    subst h1
    exact parse_fragment_definition_groupsOk hfr
  · rw [PR.bind_eq_ok] at h
    obtain ⟨u, ts₁, -, h⟩ := h
    exact (PR.noConfusion h)

/-- C7: in every AST produced by the document parser, every present optional
group (arguments, variable definitions, directives) holds at least one item;
in particular `parse_directives` returns `some` only for a non-empty run of
directives. -/
theorem parse_document_groups_nonempty :
    (∀ (fuel : Nat) (ts ts' : PState) (doc : Document),
       parse_document fuel ts = PR.ok doc ts' →
       Document.groupsOk doc = true) ∧
    (∀ (fuel : Nat) (ts ts' : PState)
       (r : Option (Spanning (List (Spanning Directive))))
       (s : Spanning (List (Spanning Directive))),
       parse_directives fuel ts = PR.ok r ts' → r = some s →
       s.item ≠ []) := by
  constructor
  · intro fuel
    induction fuel with
    | zero =>
      intro ts ts' doc h
      simp [parse_document] at h
    | succ fuel ih =>
      intro ts ts' doc h
      unfold parse_document at h
      rw [PR.bind_eq_ok] at h
      obtain ⟨d, ts₁, hd, h⟩ := h
      split at h
      · injection h with h1 _
        subst h1
        simp [Document.groupsOk, parse_definition_groupsOk hd]
      · rw [PR.bind_eq_ok] at h
        obtain ⟨ds, ts₂, hds, h⟩ := h
        injection h with h1 _
        subst h1
        have h2 := ih ts₁ ts₂ ds hds
        simp [Document.groupsOk] at h2 ⊢
        exact ⟨parse_definition_groupsOk hd, h2⟩
  · intro fuel ts ts' r s h hs
    subst hs
    have hok := parse_directives_groupsOk h
    simp only [Option.map, dirsOptOk] at hok
    intro hc
    rw [hc] at hok
    simp at hok

/-- Witness for C7 on the parse of `"query ($e: Int = 5) { a }"`. -/
theorem parse_document_groups_nonempty_witness :
    Document.groupsOk docVarDefault = true :=
  parse_document_groups_nonempty.1 30 tokensVarDefault
    [tk 25 25 Token.EndOfFile] docVarDefault rfl

/-- Witness for C10: an unrecognized key is ignored on a concrete form. -/
theorem from_form_items_ok_characterization_witness :
    from_form_items (fun _ => Except.ok InputValue.Null)
        [("query", "{ a }"), ("x", "y")] =
      from_form_items (fun _ => Except.ok InputValue.Null)
        ([("query", "{ a }"), ("x", "y")].filter recognizedKey) :=
  (from_form_items_ok_characterization (fun _ => Except.ok InputValue.Null)
    [("query", "{ a }"), ("x", "y")]).2

end Juniper
